import Mathlib

/-!
Shallow embedding of `src/excel_merge_match.py` (the core, non-GUI part):
cell-value normalization, the merged-range resolver, the keyed mapping
builder and the mapping applicator.  Python strings are Lean `String`s;
Python `str.strip` / `str.split(";")` are modelled character-list-wise;
Python numbers (`int` / `float`) are modelled exactly as `ℤ` / `ℚ`
(arithmetic in the source is plain addition, and the only float
predicates used are `is_integer` and equality on small decimals, which
the rational model reproduces; IEEE rounding is not modelled).
-/

namespace ExcelMergeMatch

/-- Model of Python `str.strip` on a character list: drop whitespace from
both ends. -/
def stripList (l : List Char) : List Char :=
  ((l.dropWhile Char.isWhitespace).reverse.dropWhile Char.isWhitespace).reverse

/-- Model of Python `str.strip` on strings. -/
def pyStrip (s : String) : String :=
  String.mk (stripList s.data)

/-- Model of Python `s.split(";")` on a character list: `""` splits to
`[""]`, `";"` splits to `["", ""]`, and so on. -/
def splitSemi : List Char → List (List Char)
  | [] => [[]]
  | c :: rest =>
      if c = ';' then [] :: splitSemi rest
      else
        match splitSemi rest with
        | [] => [[c]]
        | p :: ps => (c :: p) :: ps

/-- Model of Python `s.split(";")` on strings. -/
def pySplitSemi (s : String) : List String :=
  (splitSemi s.data).map String.mk

/-- Numeric value of a list of decimal digit characters. -/
def digitsVal (l : List Char) : ℕ :=
  l.foldl (fun a c => a * 10 + (c.toNat - 48)) 0

/-- Exact rational addition, phrased through `mkRat` so that it
evaluates by kernel reduction (the `+` of `ℚ` is sealed); it agrees
with `+` by `ratAdd_eq_add` below. -/
def ratAdd (p c : ℚ) : ℚ :=
  mkRat (p.num * (c.den : ℤ) + c.num * (p.den : ℤ)) (p.den * c.den)

/-- Exact rational negation through `mkRat`; agrees with `Neg.neg` by
`ratNeg_eq_neg` below. -/
def ratNeg (q : ℚ) : ℚ :=
  mkRat (-q.num) q.den

/-- Core of the model of Python `float(s)` on an unsigned numeral:
digits with at most one decimal point and at least one digit overall,
with the exact decimal value `ip.fp = (ip * 10^|fp| + fp) / 10^|fp|`.
Exponent notation, `inf`/`nan` and digit underscores are not modelled:
the development only ever applies it to plain decimal numerals. -/
def parseFloatCore (cs : List Char) : Option ℚ :=
  let ip := cs.takeWhile Char.isDigit
  let rest := cs.dropWhile Char.isDigit
  match rest with
  | [] => if ip = [] then Option.none else some ((digitsVal ip : ℚ))
  | '.' :: fp =>
      if fp.all Char.isDigit ∧ (ip ≠ [] ∨ fp ≠ []) then
        some (mkRat ((digitsVal ip * 10 ^ fp.length + digitsVal fp : ℕ) : ℤ)
          (10 ^ fp.length))
      else Option.none
  | _ => Option.none

/-- Model of Python `float(s)` for a pre-stripped string: optional sign
followed by a plain decimal numeral. -/
def parseFloat (t : String) : Option ℚ :=
  match t.data with
  | '-' :: cs => (parseFloatCore cs).map ratNeg
  | '+' :: cs => parseFloatCore cs
  | cs => parseFloatCore cs

/-- Closed union of the dynamic cell values flowing through the tool:
`none` is Python `None`, `int`/`float` are the two Python number types
(`float` modelled as an exact rational), `str` a string, `bool` a
boolean, and `date` a `datetime.date` carried as year/month/day. -/
inductive Value where
  | none
  | int (z : ℤ)
  | float (q : ℚ)
  | str (s : String)
  | bool (b : Bool)
  | date (y m d : ℕ)
deriving DecidableEq

/-- Two-digit zero padding, as in `date.isoformat`. -/
def pad2 (n : ℕ) : String :=
  if n < 10 then "0" ++ toString n else toString n

/-- Model of `date.isoformat()`: `YYYY-MM-DD`. -/
def isoDate (y m d : ℕ) : String :=
  toString y ++ "-" ++ pad2 m ++ "-" ++ pad2 d

/-- Decimal digits of the fraction `r / d` (with `r < d`), by long
division with fuel; terminates exactly for denominators of the form
`2^a * 5^b`, which covers every value Python prints as a finite
decimal. -/
def fracDigits : ℕ → ℕ → ℕ → String
  | 0, _, _ => ""
  | n + 1, r, d =>
      if r = 0 then ""
      else toString ((r * 10) / d) ++ fracDigits n ((r * 10) % d) d

/-- Model of Python `str(f)` for a non-integral float: sign, integer
part, dot, fractional digits. -/
def floatToString (q : ℚ) : String :=
  (if q.num < 0 then "-" else "")
    ++ toString (q.num.natAbs / q.den) ++ "."
    ++ fracDigits 20 (q.num.natAbs % q.den) q.den

/-- Model of `_cell_to_str`: `None` to `""`, booleans to `TRUE`/`FALSE`,
dates to ISO text, whole-valued floats to integer text, everything else
to stripped string form. -/
def cellToStr : Value → String
  | Value.none => ""
  | Value.bool b => if b then "TRUE" else "FALSE"
  | Value.date y m d => isoDate y m d
  | Value.int z => toString z
  | Value.float q => if q.den = 1 then toString q.num else floatToString q
  | Value.str s => pyStrip s

/-- Model of `_try_to_float`: numbers pass through (booleans excluded),
strings are stripped and parsed, everything else is `None`. -/
def tryToFloat : Value → Option ℚ
  | Value.none => Option.none
  | Value.bool _ => Option.none
  | Value.int z => some ((z : ℚ))
  | Value.float q => some q
  | Value.str s =>
      let t := pyStrip s
      if t = "" then Option.none else parseFloat t
  | Value.date _ _ _ => Option.none

/-- The `seen` set of `_accumulate`: stripped non-empty `;`-separated
parts of the previous text. -/
def seenSet (prevS : String) : List String :=
  ((pySplitSemi prevS).map pyStrip).filter (fun x => decide (x ≠ ""))

/-- Text branch of `_accumulate`: order-preserving `;`-joined union. -/
def textUnion (prev cur : Value) : Value :=
  let prevS := cellToStr prev
  let curS := cellToStr cur
  if prevS = "" then Value.str curS
  else if curS = "" then Value.str prevS
  else if curS ∈ seenSet prevS then Value.str prevS
  else Value.str (prevS ++ ";" ++ curS)

/-- Model of `_accumulate`: if both inputs parse as numbers, sum them,
collapsing an integral sum to `int`; otherwise fall back to the text
union. -/
def accumulate (prev cur : Value) : Value :=
  match tryToFloat prev, tryToFloat cur with
  | some p, some c =>
      let s := ratAdd p c
      if s.den = 1 then Value.int s.num else Value.float s
  | _, _ => textUnion prev cur

/-- A rectangular merged region; only the top-left cell stores a value. -/
structure MergedRange where
  min_row : ℕ
  min_col : ℕ
  max_row : ℕ
  max_col : ℕ
deriving DecidableEq

/-- Membership of a coordinate in a merged range. -/
def MergedRange.covers (mr : MergedRange) (r c : ℕ) : Prop :=
  mr.min_row ≤ r ∧ r ≤ mr.max_row ∧ mr.min_col ≤ c ∧ c ≤ mr.max_col

instance (mr : MergedRange) (r c : ℕ) : Decidable (mr.covers r c) := by
  unfold MergedRange.covers; infer_instance

/-- A worksheet: a finite cell store plus merge metadata and the
openpyxl `max_row` / `max_column` bounds. -/
structure Sheet where
  cells : List ((ℕ × ℕ) × Value)
  merged : List MergedRange
  max_row : ℕ
  max_col : ℕ
deriving DecidableEq

/-- First-match association lookup in the cell store. -/
def cellLookup (r c : ℕ) : List ((ℕ × ℕ) × Value) → Option Value
  | [] => Option.none
  | kv :: rest => if kv.1 = (r, c) then some kv.2 else cellLookup r c rest

/-- `ws.cell(row=r, column=c).value`: an absent cell reads as `None`. -/
def Sheet.cellValue (ws : Sheet) (r c : ℕ) : Value :=
  match cellLookup r c ws.cells with
  | some v => v
  | Option.none => Value.none

/-- `ws.cell(row=r, column=c).value = v`: overwrite one cell, growing
the sheet bounds as openpyxl does. -/
def Sheet.setCell (ws : Sheet) (r c : ℕ) (v : Value) : Sheet :=
  { cells := ((r, c), v) :: ws.cells.filter (fun kv => decide (kv.1 ≠ (r, c))),
    merged := ws.merged,
    max_row := max ws.max_row r,
    max_col := max ws.max_col c }

/-- The `_MergedValueResolver` lookup: the top-left anchor of the merged
range covering `(r, c)`, if any.  The Python constructor writes ranges
into a dict in order, so on (never-occurring) overlaps the last range
wins, hence `getLast?`. -/
def mergedLookup (ranges : List MergedRange) (r c : ℕ) : Option (ℕ × ℕ) :=
  ((ranges.filter (fun mr => decide (mr.covers r c))).getLast?).map
    (fun mr => (mr.min_row, mr.min_col))

/-- `_MergedValueResolver.get`: inside a merged range read the anchor,
otherwise read the cell itself. -/
def resolverGet (ws : Sheet) (r c : ℕ) : Value :=
  match mergedLookup ws.merged r c with
  | some tl => ws.cellValue tl.1 tl.2
  | Option.none => ws.cellValue r c

/-- First-match association lookup for string-keyed maps. -/
def hlookup {β : Type} (k : String) : List (String × β) → Option β
  | [] => Option.none
  | kv :: rest => if kv.1 = k then some kv.2 else hlookup k rest

/-- Header name of column `c`: the stripped header-cell text, with the
positional fallback `列c` for blanks. -/
def headerName (ws : Sheet) (headerRow c : ℕ) : String :=
  let n := cellToStr (ws.cellValue headerRow c)
  if n = "" then "列" ++ toString c else n

/-- One column step of `_get_header_map`. -/
def headerStep (ws : Sheet) (headerRow : ℕ) (m : List (String × ℕ)) (i : ℕ) :
    List (String × ℕ) :=
  let name := headerName ws headerRow (i + 1)
  if (hlookup name m).isSome then m else m ++ [(name, i + 1)]

/-- `_get_header_map`: first occurrence of a duplicated name wins. -/
def headerMap (ws : Sheet) (headerRow : ℕ) : List (String × ℕ) :=
  (List.range ws.max_col).foldl (headerStep ws headerRow) []

/-- `_header_names`. -/
def headerNames (ws : Sheet) (headerRow : ℕ) : List String :=
  (List.range ws.max_col).map (fun i => headerName ws headerRow (i + 1))

/-- Recursive worker for `_build_key`: returns `""` as soon as one key
column normalizes to empty text. -/
def buildKeyGo (ws : Sheet) (row : ℕ) : List ℕ → List String → String
  | [], parts => String.intercalate "_" parts.reverse
  | c :: rest, parts =>
      let s := cellToStr (resolverGet ws row c)
      if s = "" then "" else buildKeyGo ws row rest (s :: parts)

/-- `_build_key`: resolved key-column texts joined with `_`, or `""`
when any column is blank. -/
def buildKey (ws : Sheet) (row : ℕ) (keyCols : List ℕ) : String :=
  buildKeyGo ws row keyCols []

/-- `SourceConfig` (file locations kept as opaque strings; loading the
workbook is I/O shell and the sheet is passed in directly). -/
structure SourceConfig where
  xlsx_path : String
  sheet_name : String
  key_columns : List String
  value_column : String
  accumulate : Bool
  header_row : ℕ
deriving DecidableEq

/-- `TargetConfig`. -/
structure TargetConfig where
  xlsx_path : String
  sheet_name : String
  key_columns : List String
  write_to_column : Option String
  header_row : ℕ
deriving DecidableEq

/-- Named failures raised by the core: the builder's collected
missing-column `ValueError`, the applicator's missing write-column
`KeyError`, and the bare `KeyError` escaping a dict subscript. -/
inductive ExcelError where
  | missingColumns (names : List String)
  | missingWriteColumn (name : String)
  | keyError (name : String)
deriving DecidableEq

instance {α β : Type} [DecidableEq α] [DecidableEq β] : DecidableEq (Except α β) :=
  fun a b =>
    match a, b with
    | Except.ok x, Except.ok y =>
        if h : x = y then isTrue (by rw [h]) else isFalse (by simp [h])
    | Except.error x, Except.error y =>
        if h : x = y then isTrue (by rw [h]) else isFalse (by simp [h])
    | Except.ok _, Except.error _ => isFalse (by simp)
    | Except.error _, Except.ok _ => isFalse (by simp)

/-- First-match association lookup in a built mapping. -/
def alookup (k : String) : List (String × Value) → Option Value
  | [] => Option.none
  | kv :: rest => if kv.1 = k then some kv.2 else alookup k rest

/-- Python `mapping[key] = v`: overwrite in place or append. -/
def dictSet (m : List (String × Value)) (k : String) (v : Value) :
    List (String × Value) :=
  if (alookup k m).isSome then
    m.map (fun kv => if kv.1 = k then (k, v) else kv)
  else m ++ [(k, v)]

/-- Python `mapping.get(key)`: `None` both for an absent key and for a
stored `None`. -/
def dictGetV (m : List (String × Value)) (k : String) : Value :=
  match alookup k m with
  | some v => v
  | Option.none => Value.none

/-- The required source columns that are absent from the headers, in
required order (key columns then the value column). -/
def requiredMissing (ws : Sheet) (cfg : SourceConfig) : List String :=
  (cfg.key_columns ++ [cfg.value_column]).filter
    (fun c => (hlookup c (headerMap ws cfg.header_row)).isNone)

/-- Key-column indices of the source (defined after the missing check
succeeds, so the default never fires). -/
def sourceKeyIdx (ws : Sheet) (cfg : SourceConfig) : List ℕ :=
  cfg.key_columns.map (fun c => (hlookup c (headerMap ws cfg.header_row)).getD 0)

/-- Value-column index of the source. -/
def sourceValIdx (ws : Sheet) (cfg : SourceConfig) : ℕ :=
  (hlookup cfg.value_column (headerMap ws cfg.header_row)).getD 0

/-- One iteration of the `build_source_mapping` row loop. -/
def buildRowStep (ws : Sheet) (keyIdx : List ℕ) (valIdx : ℕ) (acc : Bool)
    (m : List (String × Value)) (r : ℕ) : List (String × Value) :=
  let key := buildKey ws r keyIdx
  if key = "" then m
  else
    let value := resolverGet ws r valIdx
    if value = Value.none ∨ cellToStr value = "" then m
    else if acc = false then
      (if (alookup key m).isSome then m else dictSet m key value)
    else
      match dictGetV m key with
      | Value.none => dictSet m key value
      | prev => dictSet m key (accumulate prev value)

/-- Data rows `header_row + 1 .. max_row`, in scan order. -/
def dataRows (headerRow maxRow : ℕ) : List ℕ :=
  List.range' (headerRow + 1) (maxRow - headerRow)

/-- `build_source_mapping` on an already-loaded sheet. -/
def build_source_mapping (ws : Sheet) (cfg : SourceConfig) :
    Except ExcelError (List (String × Value)) :=
  if requiredMissing ws cfg ≠ [] then
    Except.error (ExcelError.missingColumns (requiredMissing ws cfg))
  else
    Except.ok ((dataRows cfg.header_row ws.max_row).foldl
      (buildRowStep ws (sourceKeyIdx ws cfg) (sourceValIdx ws cfg) cfg.accumulate) [])

/-- Header-name resolution by dict subscript, as in the applicator's
list comprehension: fails with a bare `KeyError` at the FIRST missing
name. -/
def headerIndexes (hm : List (String × ℕ)) : List String → Except ExcelError (List ℕ)
  | [] => Except.ok []
  | c :: rest =>
      match hlookup c hm with
      | Option.none => Except.error (ExcelError.keyError c)
      | some i =>
          match headerIndexes hm rest with
          | Except.error e => Except.error e
          | Except.ok l => Except.ok (i :: l)

/-- The header written onto a freshly appended destination column. -/
def defaultHeader (src_cfg : SourceConfig) (output_header : Option String) : String :=
  match output_header with
  | some s => if pyStrip s ≠ "" then s else "匹配_" ++ src_cfg.value_column
  | Option.none => "匹配_" ++ src_cfg.value_column

/-- One iteration of the applicator row loop, threading the sheet and
the `(matched, total)` counters: an empty key skips the row entirely, a
valid key counts towards the total, and a non-null lookup writes the
mapped value into the destination column and counts as matched. -/
def applyRow (mapping : List (String × Value)) (keyIdx : List ℕ) (writeCol : ℕ)
    (st : Sheet × ℕ × ℕ) (r : ℕ) : Sheet × ℕ × ℕ :=
  if buildKey st.1 r keyIdx = "" then st
  else if dictGetV mapping (buildKey st.1 r keyIdx) = Value.none then
    (st.1, st.2.1, st.2.2 + 1)
  else
    (st.1.setCell r writeCol (dictGetV mapping (buildKey st.1 r keyIdx)),
     st.2.1 + 1, st.2.2 + 1)

/-- The applicator row loop over a row list. -/
def applyRows (mapping : List (String × Value)) (keyIdx : List ℕ) (writeCol : ℕ)
    (ws : Sheet) (rows : List ℕ) : Sheet × ℕ × ℕ :=
  rows.foldl (applyRow mapping keyIdx writeCol) (ws, 0, 0)

/-- Last occurrence split: `some (before, after)` around the last `sep`. -/
def splitLastAux (sep : Char) : List Char → Option (List Char × List Char)
  | [] => Option.none
  | c :: rest =>
      match splitLastAux sep rest with
      | some (a, b) => some (c :: a, b)
      | Option.none => if c = sep then some ([], rest) else Option.none

/-- `Path(p).with_name(stem + "_matched" + suffix)`: insert the fixed
marker before the extension of the final path component. -/
def defaultOutputPath (p : String) : String :=
  let cs := p.data
  let dirFile : List Char × List Char :=
    match splitLastAux '/' cs with
    | some (d, f) => (d ++ ['/'], f)
    | Option.none => ([], cs)
  let stemSuffix : List Char × List Char :=
    match splitLastAux '.' dirFile.2 with
    | some (s, ext) => if s = [] then (dirFile.2, []) else (s, '.' :: ext)
    | Option.none => (dirFile.2, [])
  String.mk (dirFile.1 ++ stemSuffix.1 ++ ("_matched".data) ++ stemSuffix.2)

/-- Output location: an explicit non-blank path wins, otherwise the
derived default next to the target file. -/
def resolveOutputPath (tgtPath : String) (output_path : Option String) : String :=
  match output_path with
  | some p => if pyStrip p = "" then defaultOutputPath tgtPath else p
  | Option.none => defaultOutputPath tgtPath

/-- Successful applicator result: the counters, the resolved output
location, and the full workbook content saved there. -/
structure ApplyOk where
  matched : ℕ
  total : ℕ
  outputPath : String
  saved : Sheet
deriving DecidableEq

/-- `apply_mapping_to_target` on an already-loaded target sheet.  The
single `wb.save` is the final step of the success path; every failure
happens before it. -/
def apply_mapping_to_target (src_cfg : SourceConfig)
    (mapping : List (String × Value)) (tgt_cfg : TargetConfig) (ws : Sheet)
    (output_path : Option String) (output_header : Option String) :
    Except ExcelError ApplyOk :=
  let hm := headerMap ws tgt_cfg.header_row
  let wreq : Option String :=
    match tgt_cfg.write_to_column with
    | some w => if w = "" then Option.none else some w
    | Option.none => Option.none
  let chosen : Except ExcelError (Sheet × ℕ) :=
    match wreq with
    | some w =>
        match hlookup w hm with
        | Option.none => Except.error (ExcelError.missingWriteColumn w)
        | some i => Except.ok (ws, i)
    | Option.none =>
        Except.ok
          (ws.setCell tgt_cfg.header_row (ws.max_col + 1)
            (Value.str (defaultHeader src_cfg output_header)),
           ws.max_col + 1)
  match chosen with
  | Except.error e => Except.error e
  | Except.ok (ws1, writeCol) =>
      match headerIndexes hm tgt_cfg.key_columns with
      | Except.error e => Except.error e
      | Except.ok keyIdx =>
          let res := applyRows mapping keyIdx writeCol ws1
            (dataRows tgt_cfg.header_row ws1.max_row)
          Except.ok
            { matched := res.2.1, total := res.2.2,
              outputPath := resolveOutputPath tgt_cfg.xlsx_path output_path,
              saved := res.1 }

/-- The save effects of one applicator run: the whole output table at
the resolved location on success, nothing on failure. -/
def savedFiles : Except ExcelError ApplyOk → List (String × Sheet)
  | Except.ok r => [(r.outputPath, r.saved)]
  | Except.error _ => []

/-- Observer: the matched count of a successful run. -/
def okMatched : Except ExcelError ApplyOk → Option ℕ
  | Except.ok r => some r.matched
  | Except.error _ => Option.none

/-- Observer: the total count of a successful run. -/
def okTotal : Except ExcelError ApplyOk → Option ℕ
  | Except.ok r => some r.total
  | Except.error _ => Option.none

/-- Observer: one cell of the saved output table of a successful run. -/
def okCell (r c : ℕ) : Except ExcelError ApplyOk → Option Value
  | Except.ok res => some (res.saved.cellValue r c)
  | Except.error _ => Option.none

/-! ### Bridge lemmas between the `mkRat`-level arithmetic and `ℚ` -/

theorem ratAdd_eq_add (p c : ℚ) : ratAdd p c = p + c := by
  have hp : ((p.den : ℚ)) ≠ 0 := by
    exact_mod_cast p.den_nz
  have hc : ((c.den : ℚ)) ≠ 0 := by
    exact_mod_cast c.den_nz
  unfold ratAdd
  rw [Rat.mkRat_eq_div]
  conv_rhs => rw [← Rat.num_div_den p, ← Rat.num_div_den c]
  rw [div_add_div _ _ hp hc]
  push_cast
  ring_nf

theorem ratNeg_eq_neg (q : ℚ) : ratNeg q = -q := by
  unfold ratNeg
  rw [Rat.mkRat_eq_div]
  push_cast
  rw [neg_div, Rat.num_div_den]

/-! ### Association-list lemmas -/

theorem alookup_append (k : String) (m : List (String × Value)) (k' : String) (v : Value) :
    alookup k (m ++ [(k', v)]) =
      match alookup k m with
      | some w => some w
      | Option.none => if k' = k then some v else Option.none := by
  induction m with
  | nil => simp [alookup]
  | cons kv rest ih =>
      by_cases h : kv.1 = k
      · simp [alookup, h]
      · simp [alookup, h, ih]

theorem alookup_mem {k : String} {m : List (String × Value)} {v : Value}
    (h : alookup k m = some v) : (k, v) ∈ m := by
  induction m with
  | nil => simp [alookup] at h
  | cons kv rest ih =>
      obtain ⟨k1, v1⟩ := kv
      by_cases hk : k1 = k
      · simp only [alookup, hk, if_true] at h
        rw [Option.some_inj] at h
        subst hk
        subst h
        exact List.mem_cons_self _ _
      · simp only [alookup, if_neg hk] at h
        exact List.mem_cons_of_mem _ (ih h)

theorem alookup_map_overwrite_self (k' : String) (v : Value) (m : List (String × Value))
    (hs : (alookup k' m).isSome) :
    alookup k' (m.map (fun kv => if kv.1 = k' then (k', v) else kv)) = some v := by
  induction m with
  | nil => simp [alookup] at hs
  | cons kv rest ih =>
      by_cases hk : kv.1 = k'
      · simp [alookup, hk]
      · simp [alookup, hk] at hs ⊢
        exact ih hs

theorem alookup_map_overwrite_ne (k k' : String) (v : Value) (m : List (String × Value))
    (h : k' ≠ k) :
    alookup k (m.map (fun kv => if kv.1 = k' then (k', v) else kv)) = alookup k m := by
  induction m with
  | nil => simp [alookup]
  | cons kv rest ih =>
      by_cases hk : kv.1 = k'
      · simp [alookup, hk, h, ih]
      · by_cases hkk : kv.1 = k
        · simp [alookup, hk, hkk, Ne.symm h]
        · simp [alookup, hk, hkk, ih]

theorem alookup_dictSet (m : List (String × Value)) (k k' : String) (v : Value) :
    alookup k (dictSet m k' v) = if k' = k then some v else alookup k m := by
  unfold dictSet
  by_cases hs : (alookup k' m).isSome
  · simp only [hs, if_true]
    by_cases hk : k' = k
    · subst hk
      simp [alookup_map_overwrite_self k' v m hs]
    · simp [alookup_map_overwrite_ne k k' v m hk, hk]
  · rw [Bool.not_eq_true] at hs
    simp only [hs, Bool.false_eq_true, if_false]
    rw [alookup_append]
    by_cases hk : k' = k
    · subst hk
      have hnone : alookup k' m = Option.none := by
        cases h : alookup k' m
        · rfl
        · rw [h] at hs; simp at hs
      simp [hnone]
    · simp only [if_neg hk]
      cases h : alookup k m <;> simp

/-! ### Cell-store lemmas -/

theorem cellLookup_filter_ne (r c r' c' : ℕ) (l : List ((ℕ × ℕ) × Value))
    (h : (r', c') ≠ (r, c)) :
    cellLookup r' c' (l.filter (fun kv => decide (kv.1 ≠ (r, c)))) = cellLookup r' c' l := by
  induction l with
  | nil => simp [cellLookup]
  | cons kv rest ih =>
      by_cases hk : kv.1 = (r, c)
      · have hne : kv.1 ≠ (r', c') := by rw [hk]; exact fun he => h he.symm
        rw [List.filter_cons_of_neg (by simp [hk]), ih]
        conv_rhs => rw [cellLookup]
        rw [if_neg hne]
      · rw [List.filter_cons_of_pos (by simp [hk])]
        by_cases hk2 : kv.1 = (r', c')
        · simp [cellLookup, hk2]
        · conv_lhs => rw [cellLookup]
          conv_rhs => rw [cellLookup]
          rw [if_neg hk2, if_neg hk2, ih]

theorem cellValue_setCell (ws : Sheet) (r c r' c' : ℕ) (v : Value) :
    (ws.setCell r c v).cellValue r' c' =
      if r' = r ∧ c' = c then v else ws.cellValue r' c' := by
  unfold Sheet.setCell Sheet.cellValue
  by_cases h : r' = r ∧ c' = c
  · obtain ⟨h1, h2⟩ := h
    subst h1; subst h2
    simp [cellLookup]
  · have hne : (r, c) ≠ (r', c') := by
      intro he
      rw [Prod.mk.injEq] at he
      exact h ⟨he.1.symm, he.2.symm⟩
    have hne2 : (r', c') ≠ (r, c) := fun he => hne he.symm
    simp only [cellLookup, hne, if_neg h, if_false]
    rw [cellLookup_filter_ne _ _ _ _ _ hne2]

theorem cellLookup_mem {r c : ℕ} {l : List ((ℕ × ℕ) × Value)} {v : Value}
    (h : cellLookup r c l = some v) : ((r, c), v) ∈ l := by
  induction l with
  | nil => simp [cellLookup] at h
  | cons kv rest ih =>
      obtain ⟨rc1, v1⟩ := kv
      by_cases hk : rc1 = (r, c)
      · simp only [cellLookup, hk, if_true] at h
        rw [Option.some_inj] at h
        subst hk
        subst h
        exact List.mem_cons_self _ _
      · simp only [cellLookup, if_neg hk] at h
        exact List.mem_cons_of_mem _ (ih h)

theorem setCell_merged (ws : Sheet) (r c : ℕ) (v : Value) :
    (ws.setCell r c v).merged = ws.merged := rfl

/-! ### Merged-lookup lemmas -/

theorem mem_of_getLastQ {α : Type} {l : List α} {x : α} (h : l.getLast? = some x) :
    x ∈ l := by
  induction l with
  | nil => simp at h
  | cons a rest ih =>
      cases hr : rest with
      | nil => subst hr; simp at h; simp [h]
      | cons b t =>
          subst hr
          rw [List.getLast?_cons_cons] at h
          exact List.mem_cons_of_mem a (ih h)

theorem mergedLookup_eq_some {ranges : List MergedRange} {r c : ℕ} {tl : ℕ × ℕ}
    (h : mergedLookup ranges r c = some tl) :
    ∃ mr ∈ ranges, mr.covers r c ∧ tl = (mr.min_row, mr.min_col) := by
  unfold mergedLookup at h
  rw [Option.map_eq_some'] at h
  obtain ⟨mr, hlast, htl⟩ := h
  have hmem := mem_of_getLastQ hlast
  rw [List.mem_filter] at hmem
  exact ⟨mr, hmem.1, of_decide_eq_true hmem.2, htl.symm⟩

/-! ### Lemmas about the strip model -/

theorem head_false_of_dropWhile_eq_self {p : Char → Bool} {a : Char} {t : List Char}
    (h : List.dropWhile p (a :: t) = a :: t) : p a = false := by
  by_cases hpa : p a
  · rw [List.dropWhile_cons, if_pos hpa] at h
    have h1 := congrArg List.length h
    have h2 : (t.dropWhile p).length ≤ t.length := (List.dropWhile_sublist p).length_le
    simp at h1
    omega
  · exact Bool.of_not_eq_true hpa

theorem dropWhile_append_of_ne_nil {p : Char → Bool} {l1 : List Char}
    (h : l1.dropWhile p = l1) (hne : l1 ≠ []) (l2 : List Char) :
    (l1 ++ l2).dropWhile p = l1 ++ l2 := by
  cases l1 with
  | nil => exact absurd rfl hne
  | cons a t =>
      have hpa : p a = false := head_false_of_dropWhile_eq_self h
      rw [List.cons_append, List.dropWhile_cons, hpa]
      simp

theorem stripList_eq_rdrop (l : List Char) :
    stripList l = List.rdropWhile Char.isWhitespace (l.dropWhile Char.isWhitespace) := rfl

theorem stripped_iff {l : List Char} :
    stripList l = l ↔
      (l.dropWhile Char.isWhitespace = l ∧ List.rdropWhile Char.isWhitespace l = l) := by
  constructor
  · intro h
    rw [stripList_eq_rdrop] at h
    obtain ⟨t, ht⟩ := List.rdropWhile_prefix Char.isWhitespace
      (l.dropWhile Char.isWhitespace)
    have hlen1 := congrArg List.length ht
    have hlen2 := congrArg List.length h
    have hlen3 : (l.dropWhile Char.isWhitespace).length ≤ l.length :=
      (List.dropWhile_sublist Char.isWhitespace).length_le
    simp only [List.length_append] at hlen1
    have hdlen : (l.dropWhile Char.isWhitespace).length = l.length := by omega
    have hd : l.dropWhile Char.isWhitespace = l :=
      (List.dropWhile_sublist Char.isWhitespace).eq_of_length hdlen
    rw [hd] at h
    exact ⟨hd, h⟩
  · intro ⟨h1, h2⟩
    rw [stripList_eq_rdrop, h1, h2]

theorem rdrop_of_drop_reverse {l : List Char}
    (h : l.reverse.dropWhile Char.isWhitespace = l.reverse) :
    List.rdropWhile Char.isWhitespace l = l := by
  rw [List.rdropWhile, h, List.reverse_reverse]

theorem drop_reverse_of_rdrop {l : List Char}
    (h : List.rdropWhile Char.isWhitespace l = l) :
    l.reverse.dropWhile Char.isWhitespace = l.reverse := by
  rw [List.rdropWhile] at h
  have := congrArg List.reverse h
  rwa [List.reverse_reverse] at this

theorem stripList_append {l1 l2 : List Char}
    (h1 : stripList l1 = l1) (hn1 : l1 ≠ [])
    (h2 : stripList l2 = l2) (hn2 : l2 ≠ []) :
    stripList (l1 ++ l2) = l1 ++ l2 := by
  obtain ⟨d1, r1⟩ := stripped_iff.mp h1
  obtain ⟨d2, r2⟩ := stripped_iff.mp h2
  apply stripped_iff.mpr
  constructor
  · exact dropWhile_append_of_ne_nil d1 hn1 l2
  · apply rdrop_of_drop_reverse
    rw [List.reverse_append]
    exact dropWhile_append_of_ne_nil (drop_reverse_of_rdrop r2) (by simpa using hn2) _
  
theorem stripList_idem (l : List Char) : stripList (stripList l) = stripList l := by
  rw [stripList_eq_rdrop, stripList_eq_rdrop]
  have hstep : (List.rdropWhile Char.isWhitespace
      (l.dropWhile Char.isWhitespace)).dropWhile Char.isWhitespace
      = List.rdropWhile Char.isWhitespace (l.dropWhile Char.isWhitespace) := by
    obtain ⟨t, ht⟩ := List.rdropWhile_prefix Char.isWhitespace
      (l.dropWhile Char.isWhitespace)
    cases hx : List.rdropWhile Char.isWhitespace (l.dropWhile Char.isWhitespace) with
    | nil => simp
    | cons a xs =>
        rw [hx] at ht
        have hd : (l.dropWhile Char.isWhitespace).dropWhile Char.isWhitespace
            = l.dropWhile Char.isWhitespace := List.dropWhile_idempotent _ _
        rw [← ht, List.cons_append] at hd
        have hpa : Char.isWhitespace a = false := head_false_of_dropWhile_eq_self hd
        rw [List.dropWhile_cons, hpa]
        simp
  rw [hstep, List.rdropWhile_idempotent]

theorem stripList_eq_nil_iff (l : List Char) :
    stripList l = [] ↔ ∀ c ∈ l, Char.isWhitespace c := by
  constructor
  · intro h c hc
    rw [stripList_eq_rdrop] at h
    rw [List.rdropWhile_eq_nil_iff] at h
    have hsplit := List.takeWhile_append_dropWhile Char.isWhitespace l
    rw [← hsplit] at hc
    rcases List.mem_append.mp hc with h1 | h2
    · exact List.mem_takeWhile_imp h1
    · exact h c h2
  · intro h
    rw [stripList_eq_rdrop, List.rdropWhile_eq_nil_iff]
    intro c hc
    exact h c ((List.dropWhile_sublist Char.isWhitespace).mem hc)

/-! ### Lemmas about the split model -/

theorem splitSemi_ne_nil (l : List Char) : splitSemi l ≠ [] := by
  induction l with
  | nil => simp [splitSemi]
  | cons c rest ih =>
      by_cases h : c = ';'
      · simp [splitSemi, h]
      · simp only [splitSemi, if_neg h]
        cases hs : splitSemi rest with
        | nil => exact absurd hs ih
        | cons p ps => simp

theorem splitSemi_append (a b : List Char) :
    splitSemi (a ++ ';' :: b) = splitSemi a ++ splitSemi b := by
  induction a with
  | nil => simp [splitSemi]
  | cons c a' ih =>
      by_cases h : c = ';'
      · simp only [List.cons_append, splitSemi, if_pos h, List.append_eq, ih]
      · simp only [List.cons_append, splitSemi, if_neg h, List.append_eq, ih]
        cases hs : splitSemi a' with
        | nil => exact absurd hs (splitSemi_ne_nil a')
        | cons p ps => simp

theorem splitSemi_no_semi {l : List Char} (h : ';' ∉ l) : splitSemi l = [l] := by
  induction l with
  | nil => rfl
  | cons c rest ih =>
      have hc : c ≠ ';' := fun he => h (he ▸ List.mem_cons_self _ _)
      have hrest : ';' ∉ rest := fun hm => h (List.mem_cons_of_mem _ hm)
      simp only [splitSemi, if_neg hc, ih hrest]

theorem splitSemi_chars {l : List Char} {c : Char} :
    ∀ part ∈ splitSemi l, c ∈ part → c ∈ l := by
  induction l with
  | nil =>
      intro part hp hc
      simp [splitSemi] at hp
      subst hp
      simp at hc
  | cons a rest ih =>
      intro part hp hc
      by_cases h : a = ';'
      · simp only [splitSemi, if_pos h] at hp
        rcases List.mem_cons.mp hp with h1 | h2
        · subst h1; simp at hc
        · exact List.mem_cons_of_mem _ (ih part h2 hc)
      · simp only [splitSemi, if_neg h] at hp
        cases hs : splitSemi rest with
        | nil => exact absurd hs (splitSemi_ne_nil rest)
        | cons p ps =>
            rw [hs] at hp
            rcases List.mem_cons.mp hp with h1 | h2
            · subst h1
              rcases List.mem_cons.mp hc with h3 | h4
              · subst h3; exact List.mem_cons_self _ _
              · exact List.mem_cons_of_mem _
                  (ih p (by rw [hs]; exact List.mem_cons_self _ _) h4)
            · exact List.mem_cons_of_mem _
                (ih part (by rw [hs]; exact List.mem_cons_of_mem _ h2) hc)

/-! ### Character-class facts about rendered numbers -/

theorem digitChar_not_white (n : ℕ) : (Nat.digitChar n).isWhitespace = false := by
  match n with
  | 0 => decide
  | 1 => decide
  | 2 => decide
  | 3 => decide
  | 4 => decide
  | 5 => decide
  | 6 => decide
  | 7 => decide
  | 8 => decide
  | 9 => decide
  | 10 => decide
  | 11 => decide
  | 12 => decide
  | 13 => decide
  | 14 => decide
  | 15 => decide
  | (m + 16) =>
      unfold Nat.digitChar
      iterate 16 rw [if_neg (by omega)]
      decide

theorem toDigitsCore_not_white (b : ℕ) :
    ∀ (fuel n : ℕ) (ds : List Char), (∀ c ∈ ds, c.isWhitespace = false) →
      ∀ c ∈ Nat.toDigitsCore b fuel n ds, c.isWhitespace = false := by
  intro fuel
  induction fuel with
  | zero =>
      intro n ds h c hc
      exact h c hc
  | succ f ih =>
      intro n ds h c hc
      have hcons : ∀ c' ∈ Nat.digitChar (n % b) :: ds, c'.isWhitespace = false := by
        intro c' hc'
        rcases List.mem_cons.mp hc' with h1 | h2
        · subst h1; exact digitChar_not_white _
        · exact h c' h2
      simp only [Nat.toDigitsCore] at hc
      by_cases hn : n / b = 0
      · rw [if_pos hn] at hc
        exact hcons c hc
      · rw [if_neg hn] at hc
        exact ih (n / b) _ hcons c hc

theorem toDigitsCore_ne_nil (b : ℕ) :
    ∀ (fuel n : ℕ) (ds : List Char), ds ≠ [] → Nat.toDigitsCore b fuel n ds ≠ [] := by
  intro fuel
  induction fuel with
  | zero =>
      intro n ds h
      exact h
  | succ f ih =>
      intro n ds h
      simp only [Nat.toDigitsCore]
      by_cases hn : n / b = 0
      · rw [if_pos hn]; simp
      · rw [if_neg hn]
        exact ih (n / b) _ (by simp)

theorem toDigits_ne_nil (b n : ℕ) : Nat.toDigits b n ≠ [] := by
  unfold Nat.toDigits
  simp only [Nat.toDigitsCore]
  by_cases hn : n / b = 0
  · rw [if_pos hn]; simp
  · rw [if_neg hn]
    exact toDigitsCore_ne_nil b n (n / b) _ (by simp)

theorem natRepr_data (n : ℕ) : (Nat.repr n).data = Nat.toDigits 10 n := rfl

theorem natRepr_ne_empty (n : ℕ) : Nat.repr n ≠ "" := by
  intro h
  have h2 := congrArg String.data h
  rw [natRepr_data] at h2
  exact toDigits_ne_nil 10 n h2

theorem natRepr_not_white (n : ℕ) : ∀ c ∈ (Nat.repr n).data, c.isWhitespace = false := by
  rw [natRepr_data]
  unfold Nat.toDigits
  exact toDigitsCore_not_white 10 (n + 1) n [] (by simp)

theorem string_data_append (s t : String) : (s ++ t).data = s.data ++ t.data := rfl

theorem dashChar_not_white : (Char.isWhitespace '-') = false := by decide

theorem intRepr_ne_empty (z : ℤ) : Int.repr z ≠ "" := by
  cases z with
  | ofNat m => exact natRepr_ne_empty m
  | negSucc m =>
      intro h
      have h2 := congrArg String.data h
      rw [Int.repr, string_data_append] at h2
      simp at h2

theorem intRepr_not_white (z : ℤ) : ∀ c ∈ (Int.repr z).data, c.isWhitespace = false := by
  cases z with
  | ofNat m => exact natRepr_not_white m
  | negSucc m =>
      intro c hc
      rw [Int.repr, string_data_append] at hc
      rcases List.mem_append.mp hc with h1 | h2
      · simp at h1
        subst h1
        decide
      · exact natRepr_not_white _ c h2

theorem toString_int_eq (z : ℤ) : toString z = Int.repr z := rfl

theorem toString_nat_eq (n : ℕ) : toString n = Nat.repr n := rfl

/-! ### Strip behaviour of rendered values -/

theorem string_ne_empty_iff (s : String) : s ≠ "" ↔ s.data ≠ [] := by
  rw [ne_eq, String.ext_iff]

theorem pyStrip_of_not_white {s : String}
    (h : ∀ c ∈ s.data, c.isWhitespace = false) : pyStrip s = s := by
  have hl : stripList s.data = s.data := by
    apply stripped_iff.mpr
    constructor
    · rw [List.dropWhile_eq_self_iff]
      intro hl
      rw [h (s.data.get ⟨0, hl⟩) (s.data.get_mem _ _)]
      simp
    · rw [List.rdropWhile_eq_self_iff]
      intro hl
      rw [h (s.data.getLast hl) (List.getLast_mem hl)]
      simp
  cases s
  simp only [pyStrip] at *
  rw [hl]

theorem fracDigits_not_white (fuel : ℕ) :
    ∀ (r d : ℕ) (c : Char), c ∈ (fracDigits fuel r d).data → c.isWhitespace = false := by
  induction fuel with
  | zero =>
      intro r d c hc
      simp [fracDigits] at hc
  | succ f ih =>
      intro r d c hc
      simp only [fracDigits] at hc
      by_cases hr : r = 0
      · rw [if_pos hr] at hc
        simp at hc
      · rw [if_neg hr, string_data_append] at hc
        rcases List.mem_append.mp hc with h1 | h2
        · exact natRepr_not_white _ c h1
        · exact ih _ _ c h2

theorem floatToString_not_white (q : ℚ) :
    ∀ c ∈ (floatToString q).data, c.isWhitespace = false := by
  intro c hc
  unfold floatToString at hc
  rw [string_data_append, string_data_append, string_data_append] at hc
  rcases List.mem_append.mp hc with h1 | h2
  · rcases List.mem_append.mp h1 with h3 | h4
    · rcases List.mem_append.mp h3 with h5 | h6
      · by_cases hq : q.num < 0
        · rw [if_pos hq] at h5
          simp at h5
          subst h5
          decide
        · rw [if_neg hq] at h5
          simp at h5
      · exact natRepr_not_white _ c h6
    · simp at h4
      subst h4
      decide
  · exact fracDigits_not_white _ _ _ c h2

theorem floatToString_ne_empty (q : ℚ) : floatToString q ≠ "" := by
  rw [string_ne_empty_iff]
  unfold floatToString
  rw [string_data_append, string_data_append, string_data_append]
  intro h
  rcases List.append_eq_nil.mp h with ⟨h1, _⟩
  rcases List.append_eq_nil.mp h1 with ⟨_, h2⟩
  simp at h2

theorem pad2_not_white (n : ℕ) : ∀ c ∈ (pad2 n).data, c.isWhitespace = false := by
  intro c hc
  unfold pad2 at hc
  by_cases h : n < 10
  · rw [if_pos h, string_data_append] at hc
    rcases List.mem_append.mp hc with h1 | h2
    · simp at h1; subst h1; decide
    · exact natRepr_not_white _ c h2
  · rw [if_neg h] at hc
    exact natRepr_not_white _ c hc

theorem isoDate_not_white (y m d : ℕ) :
    ∀ c ∈ (isoDate y m d).data, c.isWhitespace = false := by
  intro c hc
  unfold isoDate at hc
  rw [string_data_append, string_data_append, string_data_append,
      string_data_append] at hc
  rcases List.mem_append.mp hc with h1 | h2
  · rcases List.mem_append.mp h1 with h3 | h4
    · rcases List.mem_append.mp h3 with h5 | h6
      · rcases List.mem_append.mp h5 with h7 | h8
        · exact natRepr_not_white _ c h7
        · simp at h8; subst h8; decide
      · exact pad2_not_white _ c h6
    · simp at h4; subst h4; decide
  · exact pad2_not_white _ c h2

theorem isoDate_ne_empty (y m d : ℕ) : isoDate y m d ≠ "" := by
  rw [string_ne_empty_iff]
  unfold isoDate
  rw [string_data_append, string_data_append, string_data_append, string_data_append]
  intro h
  rcases List.append_eq_nil.mp h with ⟨h1, _⟩
  rcases List.append_eq_nil.mp h1 with ⟨h2, _⟩
  rcases List.append_eq_nil.mp h2 with ⟨h3, _⟩
  rcases List.append_eq_nil.mp h3 with ⟨_, h4⟩
  simp at h4

theorem pyStrip_idem (s : String) : pyStrip (pyStrip s) = pyStrip s := by
  unfold pyStrip
  simp only [stripList_idem]

/-- Every normalized cell text is already stripped: `_cell_to_str` never
produces leading or trailing whitespace. -/
theorem cellToStr_stripped (v : Value) : pyStrip (cellToStr v) = cellToStr v := by
  cases v with
  | none => decide
  | bool b => cases b <;> decide
  | date y m d => exact pyStrip_of_not_white (isoDate_not_white y m d)
  | int z =>
      simp only [cellToStr, toString_int_eq]
      exact pyStrip_of_not_white (intRepr_not_white z)
  | float q =>
      simp only [cellToStr]
      by_cases h : q.den = 1
      · rw [if_pos h, toString_int_eq]
        exact pyStrip_of_not_white (intRepr_not_white q.num)
      · rw [if_neg h]
        exact pyStrip_of_not_white (floatToString_not_white q)
  | str s => exact pyStrip_idem s

/-- The normalized text of an `int` value is never empty. -/
theorem cellToStr_int_ne_empty (z : ℤ) : cellToStr (Value.int z) ≠ "" := by
  simp only [cellToStr, toString_int_eq]
  exact intRepr_ne_empty z

/-- The normalized text of a `float` value is never empty. -/
theorem cellToStr_float_ne_empty (q : ℚ) : cellToStr (Value.float q) ≠ "" := by
  simp only [cellToStr]
  by_cases h : q.den = 1
  · rw [if_pos h, toString_int_eq]
    exact intRepr_ne_empty q.num
  · rw [if_neg h]
    exact floatToString_ne_empty q

/-! ### C1: merged-value resolution -/

/-- The invariant openpyxl maintains for real workbooks: every covered,
non-anchor cell of a merged range stores null. -/
def noHiddenValues (ws : Sheet) : Prop :=
  ∀ kv ∈ ws.cells, ∀ mr ∈ ws.merged,
    mr.covers kv.1.1 kv.1.2 → kv.1 ≠ (mr.min_row, mr.min_col) → kv.2 = Value.none

instance (ws : Sheet) : Decidable (noHiddenValues ws) := by
  unfold noHiddenValues
  infer_instance

/-- Sheet with a value hidden inside a merged range away from the anchor. -/
def exC1 : Sheet :=
  { cells := [((1, 1), Value.str "Y"), ((2, 2), Value.str "X")],
    merged := [{ min_row := 1, min_col := 1, max_row := 2, max_col := 2 }],
    max_row := 2, max_col := 2 }

/-- C1, counterexample: the claim says the resolver returns a cell's own
stored value whenever that value is non-null; but the code consults the
merge lookup first, so inside a merged range the anchor value wins even
over a non-null own value.  At (2,2) the own value is "X" (non-null),
yet the resolver returns the anchor value "Y". -/
theorem C1_cex :
    exC1.cellValue 2 2 = Value.str "X" ∧ exC1.cellValue 2 2 ≠ Value.none ∧
      resolverGet exC1 2 2 = Value.str "Y" ∧
      resolverGet exC1 2 2 ≠ exC1.cellValue 2 2 := by decide

/-- C1, amended: on sheets where covered non-anchor cells store null (as
in every actual workbook), the resolver returns the cell's own value
when non-null, the anchor value when the own value is null and the
coordinate lies in a merged range, and null otherwise. -/
theorem C1_resolver (ws : Sheet) (r c : ℕ) (h : noHiddenValues ws) :
    (ws.cellValue r c ≠ Value.none → resolverGet ws r c = ws.cellValue r c) ∧
    (ws.cellValue r c = Value.none →
      (∀ tl, mergedLookup ws.merged r c = some tl →
        resolverGet ws r c = ws.cellValue tl.1 tl.2) ∧
      (mergedLookup ws.merged r c = Option.none → resolverGet ws r c = Value.none)) := by
  constructor
  · intro hne
    cases hml : mergedLookup ws.merged r c with
    | none => simp [resolverGet, hml]
    | some tl =>
        obtain ⟨mr, hmr, hcov, htl⟩ := mergedLookup_eq_some hml
        by_cases heq : (r, c) = (mr.min_row, mr.min_col)
        · simp only [resolverGet, hml]
          rw [htl, ← heq]
        · exfalso
          apply hne
          unfold Sheet.cellValue
          cases hcl : cellLookup r c ws.cells with
          | none => rfl
          | some v =>
              have hmem := cellLookup_mem hcl
              exact h ((r, c), v) hmem mr hmr hcov heq
  · intro hnull
    constructor
    · intro tl hml
      simp [resolverGet, hml]
    · intro hml
      simp [resolverGet, hml, hnull]

/-- Sheet with one merged range whose anchor holds "Y" and whose other
cells are unset. -/
def exC1b : Sheet :=
  { cells := [((1, 1), Value.str "Y")],
    merged := [{ min_row := 1, min_col := 1, max_row := 2, max_col := 2 }],
    max_row := 2, max_col := 2 }

theorem C1_resolver_witness :
    noHiddenValues exC1b ∧ resolverGet exC1b 2 2 = exC1b.cellValue 1 1 :=
  ⟨by decide, ((C1_resolver exC1b 2 2 (by decide)).2 (by decide)).1 (1, 1) (by decide)⟩

/-! ### C4: numeric accumulation -/

/-- C4: when both inputs parse as numbers, `_accumulate` returns their
arithmetic sum, collapsed to integer form exactly when the sum is
mathematically integral (in particular when both inputs are whole);
2+3 gives integer 5, 2.5+2.5 gives whole-number 5, 2+2.5 gives 4.5. -/
theorem C4_numeric (P C : Value) (p c : ℚ)
    (hp : tryToFloat P = some p) (hc : tryToFloat C = some c) :
    accumulate P C =
      (if (p + c).den = 1 then Value.int (p + c).num else Value.float (p + c)) ∧
    (p.den = 1 → c.den = 1 → accumulate P C = Value.int (p + c).num) ∧
    accumulate (Value.int 2) (Value.int 3) = Value.int 5 ∧
    accumulate (Value.float (mkRat 5 2)) (Value.float (mkRat 5 2)) = Value.int 5 ∧
    accumulate (Value.int 2) (Value.float (mkRat 5 2)) = Value.float (mkRat 9 2) := by
  have hmain : accumulate P C =
      (if (p + c).den = 1 then Value.int (p + c).num else Value.float (p + c)) := by
    simp only [accumulate, hp, hc]
    rw [ratAdd_eq_add]
  refine ⟨hmain, ?_, by decide, by decide, by decide⟩
  intro hpd hcd
  have hsum : (p + c).den = 1 := by
    have hp1 : p = ((p.num : ℚ)) := by
      conv_lhs => rw [← Rat.num_div_den p]
      rw [hpd]
      simp
    have hc1 : c = ((c.num : ℚ)) := by
      conv_lhs => rw [← Rat.num_div_den c]
      rw [hcd]
      simp
    rw [hp1, hc1, ← Int.cast_add, Rat.den_intCast]
  rw [hmain, if_pos hsum]

theorem C4_numeric_witness :
    tryToFloat (Value.int 2) = some ((2 : ℚ)) ∧
    accumulate (Value.int 2) (Value.int 3) =
      (if (((2 : ℚ)) + 3).den = 1 then Value.int (((2 : ℚ)) + 3).num
       else Value.float (((2 : ℚ)) + 3)) :=
  ⟨by decide, (C4_numeric (Value.int 2) (Value.int 3) 2 3 (by decide) (by decide)).1⟩

/-! ### C10: numeric-parseable text accumulates numerically -/

/-- C10: two string inputs that both parse as numbers are summed
numerically ("2" and "3" give integer 5, not "2;3"); the text set-union
branch runs exactly when at least one input fails to parse. -/
theorem C10_numeric_text (s t : String) (p c : ℚ)
    (hp : tryToFloat (Value.str s) = some p)
    (hc : tryToFloat (Value.str t) = some c) :
    accumulate (Value.str s) (Value.str t) =
      (if (p + c).den = 1 then Value.int (p + c).num else Value.float (p + c)) ∧
    accumulate (Value.str "2") (Value.str "3") = Value.int 5 ∧
    (∀ u v : Value, (tryToFloat u = Option.none ∨ tryToFloat v = Option.none) →
      accumulate u v = textUnion u v) := by
  refine ⟨?_, by decide, ?_⟩
  · simp only [accumulate, hp, hc]
    rw [ratAdd_eq_add]
  · intro u v h
    rcases h with h | h
    · cases hv : tryToFloat v <;> simp [accumulate, h, hv]
    · cases hu : tryToFloat u <;> simp [accumulate, h, hu]

theorem C10_numeric_text_witness :
    tryToFloat (Value.str "2") = some ((2 : ℚ)) ∧
    accumulate (Value.str "2") (Value.str "3") =
      (if (((2 : ℚ)) + 3).den = 1 then Value.int (((2 : ℚ)) + 3).num
       else Value.float (((2 : ℚ)) + 3)) :=
  ⟨by decide, (C10_numeric_text "2" "3" 2 3 (by decide) (by decide)).1⟩

/-! ### C8: all-or-nothing output -/

/-- C8: the applicator performs no save on any failing run; the single
save effect exists exactly on the success path and carries the whole
output table. -/
theorem C8_no_partial_output (src_cfg : SourceConfig)
    (mapping : List (String × Value)) (tgt_cfg : TargetConfig) (ws : Sheet)
    (op oh : Option String) :
    (∀ e, apply_mapping_to_target src_cfg mapping tgt_cfg ws op oh = Except.error e →
      savedFiles (apply_mapping_to_target src_cfg mapping tgt_cfg ws op oh) = []) ∧
    (∀ res, apply_mapping_to_target src_cfg mapping tgt_cfg ws op oh = Except.ok res →
      savedFiles (apply_mapping_to_target src_cfg mapping tgt_cfg ws op oh)
        = [(res.outputPath, res.saved)]) := by
  constructor
  · intro e h
    rw [h]
    rfl
  · intro res h
    rw [h]
    rfl

/-- Target sheet for the C8 witness: header "X" only. -/
def exC8 : Sheet :=
  { cells := [((1, 1), Value.str "X"), ((2, 1), Value.str "x")],
    merged := [], max_row := 2, max_col := 1 }

/-- Target config for the C8 witness: requests the absent column "Y". -/
def exC8tgt : TargetConfig :=
  { xlsx_path := "t.xlsx", sheet_name := "T", key_columns := ["X", "Y"],
    write_to_column := Option.none, header_row := 1 }

/-- Source config shell for the C8 witness. -/
def exC8src : SourceConfig :=
  { xlsx_path := "s.xlsx", sheet_name := "S", key_columns := ["X"],
    value_column := "V", accumulate := false, header_row := 1 }

theorem C8_no_partial_output_witness :
    savedFiles (apply_mapping_to_target exC8src [] exC8tgt exC8
      Option.none Option.none) = [] :=
  (C8_no_partial_output exC8src [] exC8tgt exC8 Option.none Option.none).1
    (ExcelError.keyError "Y") (by decide)

/-! ### C3: text accumulation as an order-preserving set union -/

theorem accumulate_textUnion_right (prev cur : Value)
    (hc : tryToFloat cur = Option.none) : accumulate prev cur = textUnion prev cur := by
  cases hp : tryToFloat prev <;> simp [accumulate, hp, hc]

theorem seenSet_mem_ne_empty {x s : String} (h : x ∈ seenSet s) : x ≠ "" := by
  unfold seenSet at h
  rw [List.mem_filter] at h
  exact of_decide_eq_true h.2

theorem stripList_subset (l : List Char) : ∀ c ∈ stripList l, c ∈ l := by
  intro c hc
  rw [stripList_eq_rdrop] at hc
  obtain ⟨t, ht⟩ := List.rdropWhile_prefix Char.isWhitespace
    (l.dropWhile Char.isWhitespace)
  have hmem : c ∈ l.dropWhile Char.isWhitespace := by
    rw [← ht]
    exact List.mem_append_left _ hc
  exact (List.dropWhile_sublist _).subset hmem

theorem pyStrip_data (s : String) : (pyStrip s).data = stripList s.data := rfl

theorem data_semijoin (a b : String) : (a ++ ";" ++ b).data = a.data ++ ';' :: b.data := by
  rw [string_data_append, string_data_append, List.append_assoc]
  rfl

theorem semijoin_ne_empty (a b : String) : a ++ ";" ++ b ≠ "" := by
  rw [string_ne_empty_iff, data_semijoin]
  simp

theorem pySplitSemi_semijoin (a b : String) (hb : (';' : Char) ∉ b.data) :
    pySplitSemi (a ++ ";" ++ b) = pySplitSemi a ++ [b] := by
  unfold pySplitSemi
  rw [data_semijoin, splitSemi_append, splitSemi_no_semi hb]
  simp

theorem seenSet_semijoin (a b : String) (hb : (';' : Char) ∉ b.data)
    (hsb : pyStrip b = b) (hnb : b ≠ "") :
    seenSet (a ++ ";" ++ b) = seenSet a ++ [b] := by
  unfold seenSet
  rw [pySplitSemi_semijoin a b hb, List.map_append, List.filter_append]
  congr 1
  simp [hsb, hnb]

theorem seenSet_single (s : String) (hs : pyStrip s = s) (hn : s ≠ "")
    (hsemi : (';' : Char) ∉ s.data) : seenSet s = [s] := by
  unfold seenSet pySplitSemi
  rw [splitSemi_no_semi hsemi]
  simp [hs, hn]

theorem pyStrip_semijoin {a b : String} (ha : pyStrip a = a) (hna : a ≠ "")
    (hb : pyStrip b = b) (hnb : b ≠ "") :
    pyStrip (a ++ ";" ++ b) = a ++ ";" ++ b := by
  have ha' : stripList a.data = a.data := congrArg String.data ha
  have hb' : stripList b.data = b.data := congrArg String.data hb
  have hna' : a.data ≠ [] := (string_ne_empty_iff a).mp hna
  have hnb' : b.data ≠ [] := (string_ne_empty_iff b).mp hnb
  have hsemi : stripList (';' :: b.data) = ';' :: b.data := by
    apply stripped_iff.mpr
    constructor
    · rw [List.dropWhile_cons_of_neg (by decide)]
    · apply rdrop_of_drop_reverse
      rw [List.reverse_cons]
      exact dropWhile_append_of_ne_nil (drop_reverse_of_rdrop (stripped_iff.mp hb').2)
        (by simpa using hnb') _
  have hall : stripList (a.data ++ ';' :: b.data) = a.data ++ ';' :: b.data :=
    stripList_append ha' hna' hsemi (by simp)
  apply String.ext
  rw [pyStrip_data, data_semijoin, hall]

theorem cellToStr_str (s : String) : cellToStr (Value.str s) = pyStrip s := rfl

/-- Unfolding of the text-union branch on two string values. -/
theorem textUnion_str (P C : String) :
    textUnion (Value.str P) (Value.str C) =
      (if pyStrip P = "" then Value.str (pyStrip C)
       else if pyStrip C = "" then Value.str (pyStrip P)
       else if pyStrip C ∈ seenSet (pyStrip P) then Value.str (pyStrip P)
       else Value.str (pyStrip P ++ ";" ++ pyStrip C)) := rfl

/-- C3, counterexample: the claim quantifies over every pair of texts,
but for texts that both parse as numbers the numeric branch preempts
the set union: accumulating text "2" into text "2" yields the integer 4
although "2" already occurs among the previous value's parts. -/
theorem C3_cex :
    pyStrip "2" ∈ seenSet (pyStrip "2") ∧
    accumulate (Value.str "2") (Value.str "2") = Value.int 4 ∧
    accumulate (Value.str "2") (Value.str "2") ≠ Value.str "2" := by decide

/-- C3, amended: restricted to an incoming text that does not parse as
a number and contains no `;`, accumulation is an idempotent,
order-preserving set union on the normalized (stripped) texts: if the
incoming text already occurs among the previous text's stripped parts
the previous normalized text is returned, accumulating the same text
twice equals accumulating it once, and "A" then "B" from empty gives
"A;B". -/
theorem C3_text_union (P C : String)
    (hC : tryToFloat (Value.str C) = Option.none)
    (hsemi : (';' : Char) ∉ C.data) :
    (pyStrip C ∈ seenSet (pyStrip P) →
      accumulate (Value.str P) (Value.str C) = Value.str (pyStrip P)) ∧
    accumulate (accumulate (Value.str P) (Value.str C)) (Value.str C)
      = accumulate (Value.str P) (Value.str C) ∧
    accumulate (accumulate (Value.str "") (Value.str "A")) (Value.str "B")
      = Value.str "A;B" := by
  have hacc : ∀ prev, accumulate prev (Value.str C) = textUnion prev (Value.str C) :=
    fun prev => accumulate_textUnion_right prev _ hC
  have hCstrip : pyStrip (pyStrip C) = pyStrip C := pyStrip_idem C
  have hCsemi : (';' : Char) ∉ (pyStrip C).data := by
    intro hmem
    exact hsemi (stripList_subset C.data ';' hmem)
  refine ⟨?_, ?_, by decide⟩
  · intro hmem
    rw [hacc, textUnion_str]
    have hprevne : pyStrip P ≠ "" := by
      intro h0
      rw [h0] at hmem
      have hempty : seenSet "" = [] := by decide
      rw [hempty] at hmem
      simp at hmem
    have hcurne : pyStrip C ≠ "" := seenSet_mem_ne_empty hmem
    rw [if_neg hprevne, if_neg hcurne, if_pos hmem]
  · rw [hacc, hacc, textUnion_str]
    by_cases hP0 : pyStrip P = ""
    · rw [if_pos hP0, textUnion_str]
      by_cases hC0 : pyStrip C = ""
      · rw [hCstrip, if_pos hC0]
      · rw [hCstrip, if_neg hC0, if_neg hC0,
            if_pos (by
              rw [seenSet_single (pyStrip C) hCstrip hC0 hCsemi]
              exact List.mem_singleton.mpr rfl)]
    · rw [if_neg hP0]
      by_cases hC0 : pyStrip C = ""
      · rw [if_pos hC0, textUnion_str, pyStrip_idem, if_neg hP0, if_pos hC0]
      · rw [if_neg hC0]
        by_cases hmem : pyStrip C ∈ seenSet (pyStrip P)
        · rw [if_pos hmem, textUnion_str, pyStrip_idem, if_neg hP0, if_neg hC0,
              if_pos hmem]
        · rw [if_neg hmem, textUnion_str]
          have hjoin : pyStrip (pyStrip P ++ ";" ++ pyStrip C) =
              pyStrip P ++ ";" ++ pyStrip C :=
            pyStrip_semijoin (pyStrip_idem P) hP0 hCstrip hC0
          rw [hjoin, if_neg (semijoin_ne_empty _ _), if_neg hC0,
              if_pos (by
                rw [seenSet_semijoin (pyStrip P) (pyStrip C) hCsemi hCstrip hC0]
                exact List.mem_append_right _ (List.mem_singleton.mpr rfl))]

theorem C3_text_union_witness :
    tryToFloat (Value.str "A") = Option.none ∧
    accumulate (Value.str "x;A") (Value.str "A") = Value.str (pyStrip "x;A") ∧
    accumulate (accumulate (Value.str "x;A") (Value.str "A")) (Value.str "A")
      = accumulate (Value.str "x;A") (Value.str "A") :=
  ⟨by decide,
   (C3_text_union "x;A" "A" (by decide) (by decide)).1 (by decide),
   (C3_text_union "x;A" "A" (by decide) (by decide)).2.1⟩

/-! ### C7: empty configuration inputs -/

theorem hlookup_append {β : Type} (k : String) (m : List (String × β)) (k' : String) (v : β) :
    hlookup k (m ++ [(k', v)]) =
      match hlookup k m with
      | some w => some w
      | Option.none => if k' = k then some v else Option.none := by
  induction m with
  | nil => simp [hlookup]
  | cons kv rest ih =>
      by_cases h : kv.1 = k
      · simp [hlookup, h]
      · simp [hlookup, h, ih]

theorem headerName_ne_empty (ws : Sheet) (hr c : ℕ) : headerName ws hr c ≠ "" := by
  unfold headerName
  by_cases h : cellToStr (ws.cellValue hr c) = ""
  · rw [if_pos h]
    rw [string_ne_empty_iff, string_data_append]
    simp
  · rw [if_neg h]
    exact h

theorem headerStep_no_empty (ws : Sheet) (hr : ℕ) (m : List (String × ℕ)) (i : ℕ)
    (h : hlookup "" m = Option.none) :
    hlookup "" (headerStep ws hr m i) = Option.none := by
  unfold headerStep
  by_cases hs : (hlookup (headerName ws hr (i + 1)) m).isSome
  · rw [if_pos hs]
    exact h
  · rw [if_neg hs, hlookup_append, h]
    simp [headerName_ne_empty ws hr (i + 1)]

theorem headerMap_no_empty_key (ws : Sheet) (hr : ℕ) :
    hlookup "" (headerMap ws hr) = Option.none := by
  unfold headerMap
  suffices hgen : ∀ (n : ℕ) (m0 : List (String × ℕ)), hlookup "" m0 = Option.none →
      hlookup "" ((List.range n).foldl (headerStep ws hr) m0) = Option.none by
    exact hgen ws.max_col [] rfl
  intro n
  induction n with
  | zero => exact fun m0 h => h
  | succ k ih =>
      intro m0 h0
      rw [List.range_succ, List.foldl_append, List.foldl_cons, List.foldl_nil]
      exact headerStep_no_empty ws hr _ k (ih m0 h0)

theorem buildKey_nil (ws : Sheet) (r : ℕ) : buildKey ws r [] = "" := rfl

theorem foldl_buildRowStep_nil (ws : Sheet) (valIdx : ℕ) (acc : Bool) :
    ∀ (rows : List ℕ) (m : List (String × Value)),
      rows.foldl (buildRowStep ws [] valIdx acc) m = m := by
  intro rows
  induction rows with
  | nil => intro m; rfl
  | cons r rest ih =>
      intro m
      rw [List.foldl_cons]
      have hstep : buildRowStep ws [] valIdx acc m r = m := by
        unfold buildRowStep
        rw [buildKey_nil]
        simp
      rw [hstep, ih]

/-- Source sheet for the C7 examples: headers "K", "V" and one data row. -/
def exC7 : Sheet :=
  { cells := [((1, 1), Value.str "K"), ((1, 2), Value.str "V"),
              ((2, 1), Value.str "a"), ((2, 2), Value.int 1)],
    merged := [], max_row := 2, max_col := 2 }

/-- Configuration with an empty key-column list. -/
def exC7cfg : SourceConfig :=
  { xlsx_path := "s.xlsx", sheet_name := "S", key_columns := [],
    value_column := "V", accumulate := false, header_row := 1 }

/-- Configuration with an empty value-column name. -/
def exC7cfg2 : SourceConfig :=
  { xlsx_path := "s.xlsx", sheet_name := "S", key_columns := ["K"],
    value_column := "", accumulate := false, header_row := 1 }

/-- C7, counterexample: with an empty key-column list the builder does
not raise any configuration error; it silently returns the empty
mapping (every row key is the empty join and is skipped). -/
theorem C7_cex : build_source_mapping exC7 exC7cfg = Except.ok [] := by decide

/-- C7, amended: the core has no ConfigurationError.  An empty
key-column list is accepted and yields the empty mapping (every row is
skipped through the empty composite key); an empty value-column name
does fail, but through the MissingColumn error (the empty string is
reported among the missing columns), because header names are never
empty. -/
theorem C7_empty_config (ws : Sheet) (cfg : SourceConfig) :
    (cfg.key_columns = [] →
      (hlookup cfg.value_column (headerMap ws cfg.header_row)).isSome = true →
      build_source_mapping ws cfg = Except.ok []) ∧
    (cfg.value_column = "" →
      build_source_mapping ws cfg
        = Except.error (ExcelError.missingColumns (requiredMissing ws cfg)) ∧
      cfg.value_column ∈ requiredMissing ws cfg) := by
  constructor
  · intro hk hv
    have hmiss : requiredMissing ws cfg = [] := by
      unfold requiredMissing
      rw [hk]
      simp only [List.nil_append, List.filter_eq_nil_iff]
      intro a ha
      rw [List.mem_singleton] at ha
      subst ha
      simp [Option.isNone_iff_eq_none]
      cases hl : hlookup cfg.value_column (headerMap ws cfg.header_row)
      · rw [hl] at hv; simp at hv
      · simp
    unfold build_source_mapping
    rw [if_neg (by rw [hmiss]; simp)]
    have hkeys : sourceKeyIdx ws cfg = [] := by
      unfold sourceKeyIdx
      rw [hk]
      rfl
    rw [hkeys, foldl_buildRowStep_nil]
  · intro hv
    have habs : (hlookup cfg.value_column (headerMap ws cfg.header_row)).isNone = true := by
      rw [hv, headerMap_no_empty_key]
      rfl
    have hmem : cfg.value_column ∈ requiredMissing ws cfg := by
      unfold requiredMissing
      rw [List.mem_filter]
      exact ⟨List.mem_append_right _ (List.mem_singleton.mpr rfl), habs⟩
    refine ⟨?_, hmem⟩
    unfold build_source_mapping
    rw [if_pos (List.ne_nil_of_mem hmem)]

theorem C7_empty_config_witness :
    build_source_mapping exC7 exC7cfg = Except.ok [] ∧
    build_source_mapping exC7 exC7cfg2
      = Except.error (ExcelError.missingColumns (requiredMissing exC7 exC7cfg2)) :=
  ⟨(C7_empty_config exC7 exC7cfg).1 rfl (by decide),
   ((C7_empty_config exC7 exC7cfg2).2 rfl).1⟩

/-! ### C6: missing-column reporting -/

theorem headerIndexes_first_missing (hm : List (String × ℕ)) :
    ∀ (cols : List String) (cbad : String),
      cols.find? (fun n => (hlookup n hm).isNone) = some cbad →
      headerIndexes hm cols = Except.error (ExcelError.keyError cbad) := by
  intro cols
  induction cols with
  | nil =>
      intro cbad h
      simp at h
  | cons c0 rest ih =>
      intro cbad h
      by_cases h0 : (hlookup c0 hm).isNone = true
      · rw [List.find?_cons] at h
        simp only [h0] at h
        rw [Option.some_inj] at h
        subst h
        unfold headerIndexes
        rw [Option.isNone_iff_eq_none.mp h0]
      · rw [List.find?_cons] at h
        rw [Bool.not_eq_true] at h0
        simp only [h0] at h
        unfold headerIndexes
        have hsome : ∃ i, hlookup c0 hm = some i := by
          cases hl : hlookup c0 hm
          · rw [hl] at h0; simp at h0
          · exact ⟨_, rfl⟩
        obtain ⟨i, hi⟩ := hsome
        rw [hi, ih cbad h]

/-- Target sheet for the C6 examples: single header "X". -/
def exC6 : Sheet :=
  { cells := [((1, 1), Value.str "X"), ((2, 1), Value.str "x")],
    merged := [], max_row := 2, max_col := 1 }

/-- Source configuration requesting keys X, Y and value Z against a
table whose only header is X. -/
def exC6srcCfg : SourceConfig :=
  { xlsx_path := "s.xlsx", sheet_name := "S", key_columns := ["X", "Y"],
    value_column := "Z", accumulate := false, header_row := 1 }

/-- Target configuration requesting key columns X, Y, Z. -/
def exC6tgt : TargetConfig :=
  { xlsx_path := "t.xlsx", sheet_name := "T", key_columns := ["X", "Y", "Z"],
    write_to_column := Option.none, header_row := 1 }

/-- Source-config shell passed through to the applicator. -/
def exC6apSrc : SourceConfig :=
  { xlsx_path := "s.xlsx", sheet_name := "S", key_columns := ["X"],
    value_column := "V", accumulate := false, header_row := 1 }

/-- C6, counterexample: against headers ["X"], the applicator asked for
key columns X, Y, Z fails with a bare KeyError naming only "Y" — the
first missing name — although "Z" is also absent; it does not enumerate
all absent names as the claim requires of both components. -/
theorem C6_cex :
    apply_mapping_to_target exC6apSrc [] exC6tgt exC6 Option.none Option.none
      = Except.error (ExcelError.keyError "Y") ∧
    (hlookup "Z" (headerMap exC6 1)).isNone = true := by decide

/-- C6, amended: only the builder collects every absent required name
into its MissingColumn error (and its missing list is exactly the
filter of the required names by absence); the applicator instead fails
at the FIRST absent key column with a bare KeyError naming only it. -/
theorem C6_missing_columns (ws : Sheet) (cfg : SourceConfig) (src2 : SourceConfig)
    (mapping : List (String × Value)) (tcfg : TargetConfig) (tws : Sheet)
    (op oh : Option String) :
    (requiredMissing ws cfg ≠ [] →
      build_source_mapping ws cfg
        = Except.error (ExcelError.missingColumns (requiredMissing ws cfg))) ∧
    (∀ name, name ∈ requiredMissing ws cfg ↔
      (name ∈ cfg.key_columns ++ [cfg.value_column] ∧
        (hlookup name (headerMap ws cfg.header_row)).isNone = true)) ∧
    (tcfg.write_to_column = Option.none →
      ∀ cbad, tcfg.key_columns.find?
          (fun n => (hlookup n (headerMap tws tcfg.header_row)).isNone) = some cbad →
        apply_mapping_to_target src2 mapping tcfg tws op oh
          = Except.error (ExcelError.keyError cbad)) := by
  refine ⟨?_, ?_, ?_⟩
  · intro h
    unfold build_source_mapping
    rw [if_pos h]
  · intro name
    unfold requiredMissing
    rw [List.mem_filter]
  · intro hw cbad hfind
    have herr := headerIndexes_first_missing (headerMap tws tcfg.header_row)
      tcfg.key_columns cbad hfind
    simp only [apply_mapping_to_target, hw, herr]

theorem C6_missing_columns_witness :
    build_source_mapping exC6 exC6srcCfg
      = Except.error (ExcelError.missingColumns (requiredMissing exC6 exC6srcCfg)) ∧
    apply_mapping_to_target exC6apSrc [] exC6tgt exC6 Option.none Option.none
      = Except.error (ExcelError.keyError "Y") :=
  ⟨(C6_missing_columns exC6 exC6srcCfg exC6apSrc [] exC6tgt exC6
      Option.none Option.none).1 (by decide),
   (C6_missing_columns exC6 exC6srcCfg exC6apSrc [] exC6tgt exC6
      Option.none Option.none).2.2 rfl "Y" (by decide)⟩

/-! ### C5: first occurrence wins when accumulate is off -/

/-- Row `r` contributes the key `k`: its composite key equals `k` and
its value-column entry passes the non-empty filter. -/
def contributes (ws : Sheet) (keyIdx : List ℕ) (valIdx : ℕ) (r : ℕ) (k : String) : Prop :=
  buildKey ws r keyIdx = k ∧
  ¬(resolverGet ws r valIdx = Value.none ∨ cellToStr (resolverGet ws r valIdx) = "")

instance (ws : Sheet) (keyIdx : List ℕ) (valIdx r : ℕ) (k : String) :
    Decidable (contributes ws keyIdx valIdx r k) := by
  unfold contributes
  infer_instance

theorem buildRowStep_skip_key {ws : Sheet} {keyIdx : List ℕ} {valIdx : ℕ} {acc : Bool}
    {m : List (String × Value)} {r : ℕ} (h : buildKey ws r keyIdx = "") :
    buildRowStep ws keyIdx valIdx acc m r = m := by
  unfold buildRowStep
  rw [h]
  simp

theorem buildRowStep_skip_val {ws : Sheet} {keyIdx : List ℕ} {valIdx : ℕ} {acc : Bool}
    {m : List (String × Value)} {r : ℕ} (h : buildKey ws r keyIdx ≠ "")
    (hv : resolverGet ws r valIdx = Value.none ∨ cellToStr (resolverGet ws r valIdx) = "") :
    buildRowStep ws keyIdx valIdx acc m r = m := by
  unfold buildRowStep
  rw [if_neg h, if_pos hv]

theorem buildRowStep_firstwins {ws : Sheet} {keyIdx : List ℕ} {valIdx : ℕ}
    {m : List (String × Value)} {r : ℕ} (h : buildKey ws r keyIdx ≠ "")
    (hv : ¬(resolverGet ws r valIdx = Value.none ∨ cellToStr (resolverGet ws r valIdx) = "")) :
    buildRowStep ws keyIdx valIdx false m r =
      (if (alookup (buildKey ws r keyIdx) m).isSome then m
       else dictSet m (buildKey ws r keyIdx) (resolverGet ws r valIdx)) := by
  unfold buildRowStep
  rw [if_neg h, if_neg hv]
  simp

theorem dictSet_absent {m : List (String × Value)} {k : String} {v : Value}
    (h : alookup k m = Option.none) : dictSet m k v = m ++ [(k, v)] := by
  unfold dictSet
  rw [h]
  simp

theorem buildRows_first_wins (ws : Sheet) (keyIdx : List ℕ) (valIdx : ℕ) :
    ∀ (rows : List ℕ) (m : List (String × Value)) (k : String), k ≠ "" →
      alookup k (rows.foldl (buildRowStep ws keyIdx valIdx false) m) =
        (match alookup k m with
         | some v => some v
         | Option.none =>
             (rows.find? (fun r => decide (contributes ws keyIdx valIdx r k))).map
               (fun r => resolverGet ws r valIdx)) := by
  intro rows
  induction rows with
  | nil =>
      intro m k hk
      rw [List.foldl_nil, List.find?_nil]
      cases h : alookup k m <;> simp
  | cons r rest ih =>
      intro m k hk
      rw [List.foldl_cons, List.find?_cons]
      by_cases hkey : buildKey ws r keyIdx = ""
      · have hnc : decide (contributes ws keyIdx valIdx r k) = false := by
          simp [contributes, hkey]
          intro he
          exact absurd he.symm (hkey ▸ hk)
        rw [buildRowStep_skip_key hkey, hnc, ih m k hk]
      · by_cases hval : resolverGet ws r valIdx = Value.none ∨
            cellToStr (resolverGet ws r valIdx) = ""
        · have hnc : decide (contributes ws keyIdx valIdx r k) = false := by
            simp only [contributes, decide_eq_false_iff_not]
            intro hc
            exact hc.2 hval
          rw [buildRowStep_skip_val hkey hval, hnc, ih m k hk]
        · rw [buildRowStep_firstwins hkey hval]
          by_cases hkk : buildKey ws r keyIdx = k
          · have hc : decide (contributes ws keyIdx valIdx r k) = true := by
              simp only [contributes, decide_eq_true_eq]
              exact ⟨hkk, hval⟩
            rw [hc]
            cases hm : alookup k m with
            | some v =>
                have : (alookup (buildKey ws r keyIdx) m).isSome = true := by
                  rw [hkk, hm]
                  rfl
                rw [if_pos this, ih m k hk, hm]
            | none =>
                have hnone : (alookup (buildKey ws r keyIdx) m).isSome = false := by
                  rw [hkk, hm]
                  rfl
                rw [if_neg (by rw [hnone]; simp),
                    dictSet_absent (hkk ▸ hm), ih _ k hk, alookup_append, hm, hkk]
                simp
          · have hnc : decide (contributes ws keyIdx valIdx r k) = false := by
              simp only [contributes, decide_eq_false_iff_not]
              intro hc
              exact hkk hc.1
            rw [hnc]
            have hsame : alookup k
                (if (alookup (buildKey ws r keyIdx) m).isSome then m
                 else dictSet m (buildKey ws r keyIdx) (resolverGet ws r valIdx))
                = alookup k m := by
              by_cases hs : (alookup (buildKey ws r keyIdx) m).isSome
              · rw [if_pos hs]
              · rw [if_neg hs, alookup_dictSet, if_neg hkk]
            by_cases hs : (alookup (buildKey ws r keyIdx) m).isSome
            · rw [if_pos hs, ih m k hk]
            · rw [if_neg hs, ih _ k hk, alookup_dictSet, if_neg hkk]

/-- C5: with accumulate off, the mapping binds each non-empty key to
the value of the topmost (first-scanned) row producing that key whose
value passes the non-empty filter; all later rows with the same key
leave the binding unchanged regardless of their values. -/
theorem C5_first_wins (ws : Sheet) (cfg : SourceConfig) (m : List (String × Value))
    (hacc : cfg.accumulate = false)
    (hok : build_source_mapping ws cfg = Except.ok m) (k : String) (hk : k ≠ "") :
    alookup k m =
      ((dataRows cfg.header_row ws.max_row).find?
        (fun r => decide (contributes ws (sourceKeyIdx ws cfg) (sourceValIdx ws cfg) r k))).map
        (fun r => resolverGet ws r (sourceValIdx ws cfg)) := by
  unfold build_source_mapping at hok
  by_cases hmiss : requiredMissing ws cfg ≠ []
  · rw [if_pos hmiss] at hok
    exact absurd hok (by simp)
  · rw [if_neg hmiss] at hok
    rw [Except.ok.injEq] at hok
    rw [hacc] at hok
    rw [← hok, buildRows_first_wins ws _ _ _ [] k hk]
    rfl

/-- Source sheet for the C5 witness: duplicate key "A" with values 1
then 2; key "B" with value 3. -/
def exC5 : Sheet :=
  { cells := [((1, 1), Value.str "K"), ((1, 2), Value.str "V"),
              ((2, 1), Value.str "A"), ((2, 2), Value.int 1),
              ((3, 1), Value.str "A"), ((3, 2), Value.int 2),
              ((4, 1), Value.str "B"), ((4, 2), Value.int 3)],
    merged := [], max_row := 4, max_col := 2 }

/-- Configuration for the C5 witness. -/
def exC5cfg : SourceConfig :=
  { xlsx_path := "s.xlsx", sheet_name := "S", key_columns := ["K"],
    value_column := "V", accumulate := false, header_row := 1 }

theorem C5_first_wins_witness :
    alookup "A" [("A", Value.int 1), ("B", Value.int 3)] =
      ((dataRows exC5cfg.header_row exC5.max_row).find?
        (fun r => decide (contributes exC5 (sourceKeyIdx exC5 exC5cfg)
          (sourceValIdx exC5 exC5cfg) r "A"))).map
        (fun r => resolverGet exC5 r (sourceValIdx exC5 exC5cfg)) :=
  C5_first_wins exC5 exC5cfg [("A", Value.int 1), ("B", Value.int 3)] rfl
    (by decide) "A" (by decide)

/-! ### C9: mapping values are non-null with non-empty text -/

theorem accumulate_textUnion_left (prev cur : Value)
    (hp : tryToFloat prev = Option.none) : accumulate prev cur = textUnion prev cur := by
  cases hc : tryToFloat cur <;> simp [accumulate, hp, hc]

theorem textUnion_good {prev cur : Value}
    (hp2 : cellToStr prev ≠ "") (hc2 : cellToStr cur ≠ "") :
    textUnion prev cur ≠ Value.none ∧ cellToStr (textUnion prev cur) ≠ "" := by
  unfold textUnion
  rw [if_neg hp2, if_neg hc2]
  by_cases hmem : cellToStr cur ∈ seenSet (cellToStr prev)
  · rw [if_pos hmem]
    refine ⟨by simp, ?_⟩
    rw [cellToStr_str, cellToStr_stripped]
    exact hp2
  · rw [if_neg hmem]
    refine ⟨by simp, ?_⟩
    rw [cellToStr_str,
        pyStrip_semijoin (cellToStr_stripped prev) hp2 (cellToStr_stripped cur) hc2]
    exact semijoin_ne_empty _ _

theorem accumulate_good {prev cur : Value}
    (hp2 : cellToStr prev ≠ "") (hc2 : cellToStr cur ≠ "") :
    accumulate prev cur ≠ Value.none ∧ cellToStr (accumulate prev cur) ≠ "" := by
  cases htp : tryToFloat prev with
  | none =>
      rw [accumulate_textUnion_left prev cur htp]
      exact textUnion_good hp2 hc2
  | some p =>
      cases htc : tryToFloat cur with
      | none =>
          rw [accumulate_textUnion_right prev cur htc]
          exact textUnion_good hp2 hc2
      | some c =>
          simp only [accumulate, htp, htc]
          by_cases hden : (ratAdd p c).den = 1
          · rw [if_pos hden]
            exact ⟨by simp, cellToStr_int_ne_empty _⟩
          · rw [if_neg hden]
            exact ⟨by simp, cellToStr_float_ne_empty _⟩

theorem dictGetV_eq_some {m : List (String × Value)} {k : String}
    (h : dictGetV m k ≠ Value.none) : alookup k m = some (dictGetV m k) := by
  unfold dictGetV at *
  cases hl : alookup k m with
  | none =>
      rw [hl] at h
      simp at h
  | some w => rfl

theorem buildRowStep_acc {ws : Sheet} {keyIdx : List ℕ} {valIdx : ℕ}
    {m : List (String × Value)} {r : ℕ} (h : buildKey ws r keyIdx ≠ "")
    (hv : ¬(resolverGet ws r valIdx = Value.none ∨ cellToStr (resolverGet ws r valIdx) = "")) :
    buildRowStep ws keyIdx valIdx true m r =
      (if dictGetV m (buildKey ws r keyIdx) = Value.none
       then dictSet m (buildKey ws r keyIdx) (resolverGet ws r valIdx)
       else dictSet m (buildKey ws r keyIdx)
         (accumulate (dictGetV m (buildKey ws r keyIdx)) (resolverGet ws r valIdx))) := by
  unfold buildRowStep
  rw [if_neg h, if_neg hv]
  simp only [Bool.true_eq_false, if_false]
  cases hd : dictGetV m (buildKey ws r keyIdx) <;> simp [hd]

theorem buildRows_values_good (ws : Sheet) (keyIdx : List ℕ) (valIdx : ℕ) (acc : Bool) :
    ∀ (rows : List ℕ) (m : List (String × Value)),
      (∀ k v, alookup k m = some v → v ≠ Value.none ∧ cellToStr v ≠ "") →
      ∀ k v, alookup k (rows.foldl (buildRowStep ws keyIdx valIdx acc) m) = some v →
        v ≠ Value.none ∧ cellToStr v ≠ "" := by
  intro rows
  induction rows with
  | nil =>
      intro m hm k v hkv
      rw [List.foldl_nil] at hkv
      exact hm k v hkv
  | cons r rest ih =>
      intro m hm
      rw [List.foldl_cons]
      apply ih
      intro k v hkv
      by_cases hkey : buildKey ws r keyIdx = ""
      · rw [buildRowStep_skip_key hkey] at hkv
        exact hm k v hkv
      · by_cases hval : resolverGet ws r valIdx = Value.none ∨
            cellToStr (resolverGet ws r valIdx) = ""
        · rw [buildRowStep_skip_val hkey hval] at hkv
          exact hm k v hkv
        · have hv2 : cellToStr (resolverGet ws r valIdx) ≠ "" := fun he => hval (Or.inr he)
          have hv1 : resolverGet ws r valIdx ≠ Value.none := fun he => hval (Or.inl he)
          cases acc with
          | false =>
              rw [buildRowStep_firstwins hkey hval] at hkv
              by_cases hs : (alookup (buildKey ws r keyIdx) m).isSome
              · rw [if_pos hs] at hkv
                exact hm k v hkv
              · rw [if_neg hs, alookup_dictSet] at hkv
                by_cases hkk : buildKey ws r keyIdx = k
                · rw [if_pos hkk, Option.some_inj] at hkv
                  subst hkv
                  exact ⟨hv1, hv2⟩
                · rw [if_neg hkk] at hkv
                  exact hm k v hkv
          | true =>
              rw [buildRowStep_acc hkey hval] at hkv
              by_cases hnone : dictGetV m (buildKey ws r keyIdx) = Value.none
              · rw [if_pos hnone, alookup_dictSet] at hkv
                by_cases hkk : buildKey ws r keyIdx = k
                · rw [if_pos hkk, Option.some_inj] at hkv
                  subst hkv
                  exact ⟨hv1, hv2⟩
                · rw [if_neg hkk] at hkv
                  exact hm k v hkv
              · rw [if_neg hnone, alookup_dictSet] at hkv
                by_cases hkk : buildKey ws r keyIdx = k
                · rw [if_pos hkk, Option.some_inj] at hkv
                  subst hkv
                  have hprev := hm _ _ (dictGetV_eq_some hnone)
                  exact accumulate_good hprev.2 hv2
                · rw [if_neg hkk] at hkv
                  exact hm k v hkv

/-- C9: every value stored by the builder is non-null and normalizes
to non-empty text; hence the applicator's "looked-up value is non-null"
test coincides exactly with key membership in the mapping. -/
theorem C9_mapping_values (ws : Sheet) (cfg : SourceConfig) (m : List (String × Value))
    (hok : build_source_mapping ws cfg = Except.ok m) :
    (∀ k v, alookup k m = some v → v ≠ Value.none ∧ cellToStr v ≠ "") ∧
    (∀ k, dictGetV m k ≠ Value.none ↔ (alookup k m).isSome = true) := by
  have hinv : ∀ k v, alookup k m = some v → v ≠ Value.none ∧ cellToStr v ≠ "" := by
    unfold build_source_mapping at hok
    by_cases hmiss : requiredMissing ws cfg ≠ []
    · rw [if_pos hmiss] at hok
      exact absurd hok (by simp)
    · rw [if_neg hmiss] at hok
      rw [Except.ok.injEq] at hok
      rw [← hok]
      exact buildRows_values_good ws _ _ _ _ []
        (by intro k v h; simp [alookup] at h)
  refine ⟨hinv, ?_⟩
  intro k
  constructor
  · intro h
    rw [dictGetV_eq_some h]
    rfl
  · intro h
    cases hl : alookup k m with
    | none => rw [hl] at h; simp at h
    | some v =>
        unfold dictGetV
        rw [hl]
        exact (hinv k v hl).1

/-- Source sheet for the C9 witness. -/
def exC9 : Sheet :=
  { cells := [((1, 1), Value.str "K"), ((1, 2), Value.str "V"),
              ((2, 1), Value.str "A"), ((2, 2), Value.int 1),
              ((3, 1), Value.str "A"), ((3, 2), Value.int 2)],
    merged := [], max_row := 3, max_col := 2 }

/-- Accumulating configuration for the C9 witness. -/
def exC9cfg : SourceConfig :=
  { xlsx_path := "s.xlsx", sheet_name := "S", key_columns := ["K"],
    value_column := "V", accumulate := true, header_row := 1 }

theorem C9_mapping_values_witness :
    Value.int 3 ≠ Value.none ∧ cellToStr (Value.int 3) ≠ "" :=
  (C9_mapping_values exC9 exC9cfg [("A", Value.int 3)] (by decide)).1
    "A" (Value.int 3) (by decide)

/-! ### C2: applicator scan semantics and the round-trip example -/

/-- The row key built over `keyIdx` is non-blank. -/
def validKey (ws : Sheet) (keyIdx : List ℕ) (r : ℕ) : Prop :=
  buildKey ws r keyIdx ≠ ""

instance (ws : Sheet) (keyIdx : List ℕ) (r : ℕ) : Decidable (validKey ws keyIdx r) := by
  unfold validKey
  infer_instance

/-- The row key is valid and present (with a non-null value) in the
mapping, exactly the applicator's write condition. -/
def rowMatches (ws : Sheet) (mapping : List (String × Value)) (keyIdx : List ℕ)
    (r : ℕ) : Prop :=
  buildKey ws r keyIdx ≠ "" ∧ dictGetV mapping (buildKey ws r keyIdx) ≠ Value.none

instance (ws : Sheet) (mapping : List (String × Value)) (keyIdx : List ℕ) (r : ℕ) :
    Decidable (rowMatches ws mapping keyIdx r) := by
  unfold rowMatches
  infer_instance

/-- The evolving sheet agrees with the original everywhere outside the
destination column, and has the same merge layout. -/
def colFrame (writeCol : ℕ) (ws0 ws : Sheet) : Prop :=
  ws.merged = ws0.merged ∧ ∀ r c, c ≠ writeCol → ws.cellValue r c = ws0.cellValue r c

theorem colFrame_refl (writeCol : ℕ) (ws : Sheet) : colFrame writeCol ws ws :=
  ⟨rfl, fun _ _ _ => rfl⟩

theorem resolverGet_frame {writeCol : ℕ} {ws0 ws : Sheet}
    (hm : ∀ mr ∈ ws0.merged, mr.min_col ≠ writeCol)
    (hf : colFrame writeCol ws0 ws) (r c : ℕ) (hc : c ≠ writeCol) :
    resolverGet ws r c = resolverGet ws0 r c := by
  unfold resolverGet
  rw [hf.1]
  cases hml : mergedLookup ws0.merged r c with
  | none => exact hf.2 r c hc
  | some tl =>
      obtain ⟨mr, hmr, _, htl⟩ := mergedLookup_eq_some hml
      apply hf.2
      rw [htl]
      exact hm mr hmr

theorem buildKeyGo_frame {writeCol : ℕ} {ws0 ws : Sheet}
    (hm : ∀ mr ∈ ws0.merged, mr.min_col ≠ writeCol)
    (hf : colFrame writeCol ws0 ws) (r : ℕ) :
    ∀ (cols : List ℕ) (parts : List String), (∀ c ∈ cols, c ≠ writeCol) →
      buildKeyGo ws r cols parts = buildKeyGo ws0 r cols parts := by
  intro cols
  induction cols with
  | nil => intro parts _; rfl
  | cons c rest ih =>
      intro parts hcols
      unfold buildKeyGo
      rw [resolverGet_frame hm hf r c (hcols c (List.mem_cons_self _ _))]
      by_cases hs : cellToStr (resolverGet ws0 r c) = ""
      · rw [if_pos hs, if_pos hs]
      · rw [if_neg hs, if_neg hs,
            ih _ (fun c' hc' => hcols c' (List.mem_cons_of_mem _ hc'))]

theorem buildKey_frame {writeCol : ℕ} {ws0 ws : Sheet} {keyIdx : List ℕ}
    (hw : writeCol ∉ keyIdx) (hm : ∀ mr ∈ ws0.merged, mr.min_col ≠ writeCol)
    (hf : colFrame writeCol ws0 ws) (r : ℕ) :
    buildKey ws r keyIdx = buildKey ws0 r keyIdx :=
  buildKeyGo_frame hm hf r keyIdx [] (fun _ hc he => hw (he ▸ hc))

theorem colFrame_setCell {writeCol : ℕ} {ws0 ws : Sheet}
    (hf : colFrame writeCol ws0 ws) (r : ℕ) (v : Value) :
    colFrame writeCol ws0 (ws.setCell r writeCol v) := by
  refine ⟨by rw [setCell_merged]; exact hf.1, ?_⟩
  intro r' c' hc'
  rw [cellValue_setCell, if_neg (fun hand => hc' hand.2)]
  exact hf.2 r' c' hc'

/-- One fold over the rows, starting from an arbitrary state. -/
def applyRowsFrom (mapping : List (String × Value)) (keyIdx : List ℕ) (writeCol : ℕ)
    (st : Sheet × ℕ × ℕ) (rows : List ℕ) : Sheet × ℕ × ℕ :=
  rows.foldl (applyRow mapping keyIdx writeCol) st

theorem applyRows_eq_from (mapping : List (String × Value)) (keyIdx : List ℕ)
    (writeCol : ℕ) (ws : Sheet) (rows : List ℕ) :
    applyRows mapping keyIdx writeCol ws rows
      = applyRowsFrom mapping keyIdx writeCol (ws, 0, 0) rows := rfl

theorem applyRow_skip {mapping : List (String × Value)} {keyIdx : List ℕ}
    {writeCol : ℕ} {st : Sheet × ℕ × ℕ} {r : ℕ} (h : buildKey st.1 r keyIdx = "") :
    applyRow mapping keyIdx writeCol st r = st := by
  unfold applyRow
  rw [if_pos h]

theorem applyRow_nomatch {mapping : List (String × Value)} {keyIdx : List ℕ}
    {writeCol : ℕ} {st : Sheet × ℕ × ℕ} {r : ℕ} (h : buildKey st.1 r keyIdx ≠ "")
    (hv : dictGetV mapping (buildKey st.1 r keyIdx) = Value.none) :
    applyRow mapping keyIdx writeCol st r = (st.1, st.2.1, st.2.2 + 1) := by
  unfold applyRow
  rw [if_neg h, if_pos hv]

theorem applyRow_match {mapping : List (String × Value)} {keyIdx : List ℕ}
    {writeCol : ℕ} (st : Sheet × ℕ × ℕ) {r : ℕ} (h : buildKey st.1 r keyIdx ≠ "")
    (hv : dictGetV mapping (buildKey st.1 r keyIdx) ≠ Value.none) :
    applyRow mapping keyIdx writeCol st r =
      (st.1.setCell r writeCol (dictGetV mapping (buildKey st.1 r keyIdx)),
       st.2.1 + 1, st.2.2 + 1) := by
  unfold applyRow
  rw [if_neg h, if_neg hv]

theorem applyRows_go (mapping : List (String × Value)) (keyIdx : List ℕ)
    (writeCol : ℕ) (ws0 : Sheet) (hw : writeCol ∉ keyIdx)
    (hm : ∀ mr ∈ ws0.merged, mr.min_col ≠ writeCol) :
    ∀ (rows : List ℕ) (ws : Sheet) (mc tc : ℕ), colFrame writeCol ws0 ws →
      colFrame writeCol ws0 (applyRowsFrom mapping keyIdx writeCol (ws, mc, tc) rows).1 ∧
      (applyRowsFrom mapping keyIdx writeCol (ws, mc, tc) rows).2.2
        = tc + (rows.filter (fun r => decide (validKey ws0 keyIdx r))).length ∧
      (applyRowsFrom mapping keyIdx writeCol (ws, mc, tc) rows).2.1
        = mc + (rows.filter (fun r => decide (rowMatches ws0 mapping keyIdx r))).length ∧
      (∀ r, r ∉ rows →
        (applyRowsFrom mapping keyIdx writeCol (ws, mc, tc) rows).1.cellValue r writeCol
          = ws.cellValue r writeCol) ∧
      (rows.Nodup → ∀ r ∈ rows,
        (rowMatches ws0 mapping keyIdx r →
          (applyRowsFrom mapping keyIdx writeCol (ws, mc, tc) rows).1.cellValue r writeCol
            = dictGetV mapping (buildKey ws0 r keyIdx)) ∧
        (¬ rowMatches ws0 mapping keyIdx r →
          (applyRowsFrom mapping keyIdx writeCol (ws, mc, tc) rows).1.cellValue r writeCol
            = ws.cellValue r writeCol)) := by
  intro rows
  induction rows with
  | nil =>
      intro ws mc tc hf
      refine ⟨hf, by simp [applyRowsFrom], by simp [applyRowsFrom], ?_, ?_⟩
      · intro r _
        rfl
      · intro _ r hr
        simp at hr
  | cons r rest ih =>
      intro ws mc tc hf
      have hkey0 : buildKey ws r keyIdx = buildKey ws0 r keyIdx :=
        buildKey_frame hw hm hf r
      have hfold : applyRowsFrom mapping keyIdx writeCol (ws, mc, tc) (r :: rest)
          = applyRowsFrom mapping keyIdx writeCol
              (applyRow mapping keyIdx writeCol (ws, mc, tc) r) rest := rfl
      by_cases hvalid : buildKey ws0 r keyIdx = ""
      · have hstep : applyRow mapping keyIdx writeCol (ws, mc, tc) r = (ws, mc, tc) :=
          applyRow_skip (by rw [hkey0]; exact hvalid)
        have hnv : decide (validKey ws0 keyIdx r) = false := by
          simp [validKey, hvalid]
        have hnmdec : decide (rowMatches ws0 mapping keyIdx r) = false := by
          simp [rowMatches, hvalid]
        have hnm : ¬ rowMatches ws0 mapping keyIdx r := fun hc => hc.1 hvalid
        obtain ⟨ih1, ih2, ih3, ih4, ih5⟩ := ih ws mc tc hf
        rw [hfold, hstep]
        refine ⟨ih1, ?_, ?_, ?_, ?_⟩
        · rw [List.filter_cons, hnv, ih2]
          simp
        · rw [List.filter_cons, hnmdec, ih3]
          simp
        · intro r' hr'
          exact ih4 r' (fun hmem => hr' (List.mem_cons_of_mem _ hmem))
        · intro hnd r' hr'
          obtain ⟨hnotin, hndrest⟩ := List.nodup_cons.mp hnd
          rcases List.mem_cons.mp hr' with h1 | h2
          · subst h1
            refine ⟨fun hc => absurd hc hnm, fun _ => ?_⟩
            exact ih4 r' hnotin
          · exact ih5 hndrest r' h2
      · by_cases hmatch : dictGetV mapping (buildKey ws0 r keyIdx) = Value.none
        · have hstep : applyRow mapping keyIdx writeCol (ws, mc, tc) r
              = (ws, mc, tc + 1) :=
            applyRow_nomatch (by rw [hkey0]; exact hvalid) (by rw [hkey0]; exact hmatch)
          have hv : decide (validKey ws0 keyIdx r) = true := by
            simp [validKey, hvalid]
          have hnmdec : decide (rowMatches ws0 mapping keyIdx r) = false := by
            simp only [rowMatches, decide_eq_false_iff_not]
            intro hc
            exact hc.2 hmatch
          have hnm : ¬ rowMatches ws0 mapping keyIdx r := fun hc => hc.2 hmatch
          obtain ⟨ih1, ih2, ih3, ih4, ih5⟩ := ih ws mc (tc + 1) hf
          rw [hfold, hstep]
          refine ⟨ih1, ?_, ?_, ?_, ?_⟩
          · rw [List.filter_cons, hv, ih2]
            simp
            omega
          · rw [List.filter_cons, hnmdec, ih3]
            simp
          · intro r' hr'
            exact ih4 r' (fun hmem => hr' (List.mem_cons_of_mem _ hmem))
          · intro hnd r' hr'
            obtain ⟨hnotin, hndrest⟩ := List.nodup_cons.mp hnd
            rcases List.mem_cons.mp hr' with h1 | h2
            · subst h1
              refine ⟨fun hc => absurd hc hnm, fun _ => ?_⟩
              exact ih4 r' hnotin
            · exact ih5 hndrest r' h2
        · have hstep : applyRow mapping keyIdx writeCol (ws, mc, tc) r
              = (ws.setCell r writeCol (dictGetV mapping (buildKey ws0 r keyIdx)),
                 mc + 1, tc + 1) := by
            rw [applyRow_match ((ws, mc, tc)) (by rw [hkey0]; exact hvalid)
                (by rw [hkey0]; exact hmatch)]
            rw [hkey0]
          have hv : decide (validKey ws0 keyIdx r) = true := by
            simp [validKey, hvalid]
          have hmdec : decide (rowMatches ws0 mapping keyIdx r) = true := by
            simp only [rowMatches, decide_eq_true_eq]
            exact ⟨hvalid, hmatch⟩
          have hmm : rowMatches ws0 mapping keyIdx r := ⟨hvalid, hmatch⟩
          have hf1 : colFrame writeCol ws0
              (ws.setCell r writeCol (dictGetV mapping (buildKey ws0 r keyIdx))) :=
            colFrame_setCell hf r _
          obtain ⟨ih1, ih2, ih3, ih4, ih5⟩ := ih
            (ws.setCell r writeCol (dictGetV mapping (buildKey ws0 r keyIdx)))
            (mc + 1) (tc + 1) hf1
          rw [hfold, hstep]
          refine ⟨ih1, ?_, ?_, ?_, ?_⟩
          · rw [List.filter_cons, hv, ih2]
            simp
            omega
          · rw [List.filter_cons, hmdec, ih3]
            simp
            omega
          · intro r' hr'
            have hr : r' ≠ r := fun he => hr' (he ▸ List.mem_cons_self _ _)
            rw [ih4 r' (fun hmem => hr' (List.mem_cons_of_mem _ hmem)),
                cellValue_setCell, if_neg (fun hand => hr hand.1)]
          · intro hnd r' hr'
            obtain ⟨hnotin, hndrest⟩ := List.nodup_cons.mp hnd
            rcases List.mem_cons.mp hr' with h1 | h2
            · subst h1
              refine ⟨fun _ => ?_, fun hc => absurd hmm hc⟩
              rw [ih4 r' hnotin, cellValue_setCell, if_pos ⟨rfl, rfl⟩]
            · have hr : r' ≠ r := fun he => hnotin (he ▸ h2)
              obtain ⟨hmat, hnomat⟩ := ih5 hndrest r' h2
              refine ⟨hmat, fun hc => ?_⟩
              rw [hnomat hc, cellValue_setCell, if_neg (fun hand => hr hand.1)]

/-- Source table of the round-trip example: keys (A,1), (A,2), (B,1)
with values 10, 20, 30. -/
def exC2src : Sheet :=
  { cells := [((1, 1), Value.str "K1"), ((1, 2), Value.str "K2"), ((1, 3), Value.str "V"),
              ((2, 1), Value.str "A"), ((2, 2), Value.int 1), ((2, 3), Value.int 10),
              ((3, 1), Value.str "A"), ((3, 2), Value.int 2), ((3, 3), Value.int 20),
              ((4, 1), Value.str "B"), ((4, 2), Value.int 1), ((4, 3), Value.int 30)],
    merged := [], max_row := 4, max_col := 3 }

/-- Source configuration of the round-trip example. -/
def exC2srcCfg : SourceConfig :=
  { xlsx_path := "source.xlsx", sheet_name := "S", key_columns := ["K1", "K2"],
    value_column := "V", accumulate := false, header_row := 1 }

/-- The mapping the example builds. -/
def exC2mapping : List (String × Value) :=
  [("A_1", Value.int 10), ("A_2", Value.int 20), ("B_1", Value.int 30)]

/-- Target table of the round-trip example: key rows (A,1), (A,2),
(B,1), (C,9). -/
def exC2tgt : Sheet :=
  { cells := [((1, 1), Value.str "K1"), ((1, 2), Value.str "K2"),
              ((2, 1), Value.str "A"), ((2, 2), Value.int 1),
              ((3, 1), Value.str "A"), ((3, 2), Value.int 2),
              ((4, 1), Value.str "B"), ((4, 2), Value.int 1),
              ((5, 1), Value.str "C"), ((5, 2), Value.int 9)],
    merged := [], max_row := 5, max_col := 2 }

/-- Target configuration of the round-trip example (fresh destination
column appended). -/
def exC2tgtCfg : TargetConfig :=
  { xlsx_path := "target.xlsx", sheet_name := "T", key_columns := ["K1", "K2"],
    write_to_column := Option.none, header_row := 1 }

/-- C2: the applicator scans the rows once; rows with a blank composite
key are skipped without counting, every valid-key row counts towards
the total, and exactly the rows whose key is bound (non-null) in the
mapping receive the mapped value in the destination column and count as
matched — under the non-interference conditions that the destination
column is not a key column and anchors no merged range.  On the
round-trip example the pipeline yields matched=3, total=4, writes 10,
20, 30 into rows 2-4 and leaves row 5 (C,9) unmatched. -/
theorem C2_apply_scan (mapping : List (String × Value)) (keyIdx : List ℕ)
    (writeCol : ℕ) (ws : Sheet) (rows : List ℕ) (hw : writeCol ∉ keyIdx)
    (hm : ∀ mr ∈ ws.merged, mr.min_col ≠ writeCol) (hnd : rows.Nodup) :
    (applyRows mapping keyIdx writeCol ws rows).2.2
      = (rows.filter (fun r => decide (validKey ws keyIdx r))).length ∧
    (applyRows mapping keyIdx writeCol ws rows).2.1
      = (rows.filter (fun r => decide (rowMatches ws mapping keyIdx r))).length ∧
    (∀ r ∈ rows, rowMatches ws mapping keyIdx r →
      (applyRows mapping keyIdx writeCol ws rows).1.cellValue r writeCol
        = dictGetV mapping (buildKey ws r keyIdx)) ∧
    (∀ r ∈ rows, ¬ rowMatches ws mapping keyIdx r →
      (applyRows mapping keyIdx writeCol ws rows).1.cellValue r writeCol
        = ws.cellValue r writeCol) ∧
    (build_source_mapping exC2src exC2srcCfg = Except.ok exC2mapping ∧
     okMatched (apply_mapping_to_target exC2srcCfg exC2mapping exC2tgtCfg exC2tgt
       Option.none Option.none) = some 3 ∧
     okTotal (apply_mapping_to_target exC2srcCfg exC2mapping exC2tgtCfg exC2tgt
       Option.none Option.none) = some 4 ∧
     okCell 2 3 (apply_mapping_to_target exC2srcCfg exC2mapping exC2tgtCfg exC2tgt
       Option.none Option.none) = some (Value.int 10) ∧
     okCell 3 3 (apply_mapping_to_target exC2srcCfg exC2mapping exC2tgtCfg exC2tgt
       Option.none Option.none) = some (Value.int 20) ∧
     okCell 4 3 (apply_mapping_to_target exC2srcCfg exC2mapping exC2tgtCfg exC2tgt
       Option.none Option.none) = some (Value.int 30) ∧
     okCell 5 3 (apply_mapping_to_target exC2srcCfg exC2mapping exC2tgtCfg exC2tgt
       Option.none Option.none) = some Value.none) := by
  obtain ⟨_, h2, h3, _, h5⟩ := applyRows_go mapping keyIdx writeCol ws hw hm rows
    ws 0 0 (colFrame_refl writeCol ws)
  rw [applyRows_eq_from]
  refine ⟨by rw [h2]; simp, by rw [h3]; simp, ?_, ?_,
    by decide, by decide, by decide, by decide, by decide, by decide, by decide⟩
  · intro r hr hmat
    exact (h5 hnd r hr).1 hmat
  · intro r hr hnomat
    exact (h5 hnd r hr).2 hnomat

theorem C2_apply_scan_witness :
    (applyRows exC2mapping [1, 2] 3 exC2tgt [2, 3, 4, 5]).2.2
      = ([2, 3, 4, 5].filter (fun r => decide (validKey exC2tgt [1, 2] r))).length :=
  (C2_apply_scan exC2mapping [1, 2] 3 exC2tgt [2, 3, 4, 5]
    (by decide) (by decide) (by decide)).1

end ExcelMergeMatch
